import Mathlib

/-!
Shallow embedding of the loom matching engine (crates/core and crates/engine).

Conventions of the embedding:
* Rust `u64`/`u128` become `Nat`; quantities never overflow in the claims
  considered, and `Order::remain` (`qty - acc_fill_qty`, which would panic on
  underflow in Rust debug builds) is modelled with truncated `Nat` subtraction;
  theorems that depend on it carry the hypothesis `acc_fill_qty ≤ qty`.
* `BigDecimal` becomes `ℚ` (arbitrary-precision exact arithmetic with the same
  value-based ordering and equality).
* Wall-clock reads (`utils::now_ts()`) are modelled by an explicit `now`
  parameter threaded through the functions that call it.
* `Rc<RefCell<Order>>` in-place mutation is modelled by returning the updated
  order / book.
* The source state names `PARTIAL_FILLED` / `PARTIAL_CANCELLED` are shortened
  to `PART_FILLED` / `PART_CANCELLED` here.
-/

namespace Loom

/-- `TradeSide` from crates/core/src/order.rs. -/
inductive TradeSide
| SELL
| BUY
deriving DecidableEq

/-- `OrderType` from crates/core/src/order.rs. -/
inductive OrderType
| MARKET
| LIMIT
deriving DecidableEq

/-- `OrderState` from crates/core/src/order.rs (PART_ = source PARTIAL_). -/
inductive OrderState
| INIT
| LIVE
| PART_FILLED
| PART_CANCELLED
| FULL_FILLED
| CANCELED
deriving DecidableEq

/-- `OrderTimeInForce` from crates/core/src/order.rs. -/
inductive OrderTimeInForce
| GTC
| IOC
| FOK
deriving DecidableEq

/-- `OrderAction` from crates/core/src/order.rs. -/
inductive OrderAction
| PLACE
| CANCEL
deriving DecidableEq

open TradeSide OrderType OrderState OrderTimeInForce OrderAction

/-- `Order` struct from crates/core/src/order.rs. -/
structure Order where
  id : Nat
  symbol : String
  side : TradeSide
  qty : Nat
  price : ℚ
  acc_fill_qty : Nat
  ord_type : OrderType
  ts : Nat
  update_ts : Nat
  state : OrderState
  tif : OrderTimeInForce
  action : OrderAction
deriving DecidableEq

/-- `Order::remain`: `qty - acc_fill_qty` (u64 subtraction; see header note). -/
def Order.remain (o : Order) : Nat :=
  o.qty - o.acc_fill_qty

/-- `Order::can_trade` from crates/core/src/order.rs. -/
def Order.can_trade (self other : Order) : Bool :=
  if self.side = other.side then
    false
  else if self.ord_type = MARKET then
    true
  else
    match self.side with
    | BUY => decide (self.price ≥ other.price)
    | SELL => decide (self.price ≤ other.price)

/-- `Order::fill` from crates/core/src/order.rs. -/
def Order.fill (o : Order) (filled_qty : Nat) (state : OrderState) : Order :=
  { o with state := state, acc_fill_qty := o.acc_fill_qty + filled_qty }

/-- `OrderKey` struct from crates/core/src/order.rs. -/
structure OrderKey where
  sequence_id : Nat
  price : ℚ
  side : TradeSide
deriving DecidableEq

/-- `BigDecimal::cmp` (value comparison), as used by `Ord for OrderKey`. -/
def cmpPx (a b : ℚ) : Ordering :=
  if a < b then .lt else if a = b then .eq else .gt

/-- `u64::cmp`, as used by `Ord for OrderKey`. -/
def cmpN (a b : Nat) : Ordering :=
  if a < b then .lt else if a = b then .eq else .gt

/-- `Ord for OrderKey` (`cmp`) from crates/core/src/order.rs.
The source panics when the two sides differ; the book only ever compares
same-side keys, and every theorem below uses `cmp` under that discipline. -/
def OrderKey.cmp (self other : OrderKey) : Ordering :=
  let o : Ordering :=
    match other.side with
    | BUY => cmpPx other.price self.price
    | SELL => cmpPx self.price other.price
  match o with
  | .eq => cmpN self.sequence_id other.sequence_id
  | o => o

/-- `OrderKey::new` from crates/core/src/order.rs. -/
def OrderKey.new (order : Order) : OrderKey :=
  { sequence_id := order.id, price := order.price, side := order.side }

/-- `OrderBook` from crates/core/src/book.rs.  The `BTreeMap<OrderKey, OrderRef>`
is modelled as the list of its orders in ascending `OrderKey.cmp` order. -/
structure OrderBook where
  symbol : String
  side : TradeSide
  orders : List Order
deriving DecidableEq

/-- `BTreeMap::contains_key` (key equality is `cmp = .eq`). -/
def OrderBook.exist_by_key (b : OrderBook) (key : OrderKey) : Bool :=
  b.orders.any (fun o => (OrderKey.new o).cmp key == .eq)

/-- `BTreeMap::insert` on the sorted-list model (the caller `OrderBook::add`
only inserts keys that are absent). -/
def insertByKey (order : Order) : List Order → List Order
| [] => [order]
| x :: xs =>
  match (OrderKey.new order).cmp (OrderKey.new x) with
  | .lt => order :: x :: xs
  | .eq => order :: xs
  | .gt => x :: insertByKey order xs

/-- `BTreeMap::remove` on the sorted-list model: returns the removed entry
(if any) and the remaining book. -/
def removeByKey (key : OrderKey) : List Order → Option Order × List Order
| [] => (none, [])
| x :: xs =>
  if (OrderKey.new x).cmp key == .eq then
    (some x, xs)
  else
    let r := removeByKey key xs
    (r.1, x :: r.2)

/-- `OrderBook::add` from crates/core/src/book.rs. -/
def OrderBook.add (b : OrderBook) (order : Order) : Except String OrderBook :=
  if order.side ≠ b.side then
    .error "order trade side mismatch"
  else if b.exist_by_key (OrderKey.new order) then
    .ok b
  else
    .ok { b with orders := insertByKey order b.orders }

/-- `OrderBook::del_by_key` from crates/core/src/book.rs. -/
def OrderBook.del_by_key (b : OrderBook) (key : OrderKey) : Option Order × OrderBook :=
  let r := removeByKey key b.orders
  (r.1, { b with orders := r.2 })

/-- `OrderBook::del` from crates/core/src/book.rs. -/
def OrderBook.del (b : OrderBook) (order : Order) : Option Order × OrderBook :=
  b.del_by_key (OrderKey.new order)

/-- `OrderBook::head` from crates/core/src/book.rs: the entry with the least
key in the map, i.e. the first element of the sorted-list model. -/
def OrderBook.head (b : OrderBook) : Option Order :=
  b.orders.head?

/-- `OrderBook::size` from crates/core/src/book.rs. -/
def OrderBook.size (b : OrderBook) : Nat :=
  b.orders.length

/-- `MatchTrade` struct from crates/core/src/market.rs. -/
structure MatchTrade where
  symbol : String
  qty : Nat
  px : ℚ
  taker_oid : Nat
  maker_oid : Nat
  taker_state : OrderState
  maker_state : OrderState
  ts : Nat
deriving DecidableEq

/-- `MatchTrade::new_taker_cancel` from crates/core/src/market.rs. -/
def MatchTrade.new_taker_cancel (s : String) (oid : Nat) (now : Nat) : MatchTrade :=
  { symbol := s, qty := 0, px := 0, taker_oid := oid, maker_oid := 0,
    taker_state := CANCELED, maker_state := INIT, ts := now }

/-- `MatchTrade::new_taker_partial_cancel` from crates/core/src/market.rs. -/
def MatchTrade.new_taker_part_cancel (s : String) (oid : Nat) (now : Nat) : MatchTrade :=
  { symbol := s, qty := 0, px := 0, taker_oid := oid, maker_oid := 0,
    taker_state := PART_CANCELLED, maker_state := INIT, ts := now }

/-- Result of the `loop` inside `MarketBook::match_book`: the emitted trades,
the current value of the (mutated) `taker_order` variable, the current value of
the `taker_remain` variable, and the resulting maker book contents. -/
structure LoopResult where
  trades : List MatchTrade
  taker : Order
  taker_remain : Nat
  makers : List Order
deriving DecidableEq

/-- The `loop` of `MarketBook::match_book` (crates/core/src/market.rs, lines
97-170), compiled to structural recursion on the maker-book list.  Each
iteration follows the source body exactly:
* `taker_remain <= 0` → break;
* no head → break;
* `!taker_order.can_trade(maker)` → break;
* `tif == FOK && maker_remain < taker_remain` → break;
* `matched_qty = min(taker_remain, maker_remain)`, `matched_qty <= 0` → break;
* fill maker (removing it from the book iff fully filled), fill taker, emit the
  trade, and continue.
When the maker is only partially filled it stays at the head of the book; in
that case `matched_qty = taker_remain`, so the new `taker_remain` is `0` and
the next source iteration breaks at the first check — the recursion returns
that final state directly, which is why the recursion can be structural. -/
def matchLoop (taker_order : Order) (taker_remain : Nat) (now : Nat) :
    List Order → LoopResult
| [] => ⟨[], taker_order, taker_remain, []⟩
| maker :: rest =>
  if taker_remain = 0 then
    ⟨[], taker_order, taker_remain, maker :: rest⟩
  else if ¬ taker_order.can_trade maker then
    ⟨[], taker_order, taker_remain, maker :: rest⟩
  else
    let maker_remain := maker.remain
    if taker_order.tif = FOK ∧ maker_remain < taker_remain then
      ⟨[], taker_order, taker_remain, maker :: rest⟩
    else
      let matched_qty := min taker_remain maker_remain
      if matched_qty = 0 then
        ⟨[], taker_order, taker_remain, maker :: rest⟩
      else
        let maker_remain2 := maker_remain - matched_qty
        let maker2 :=
          if maker_remain2 > 0 then maker.fill matched_qty PART_FILLED
          else maker.fill matched_qty FULL_FILLED
        let taker_remain2 := taker_remain - matched_qty
        let taker2 :=
          if taker_remain2 > 0 then taker_order.fill matched_qty PART_FILLED
          else taker_order.fill matched_qty FULL_FILLED
        let trade : MatchTrade :=
          { symbol := taker2.symbol, qty := matched_qty, px := maker2.price,
            taker_oid := taker2.id, maker_oid := maker2.id,
            taker_state := taker2.state, maker_state := maker2.state, ts := now }
        if maker_remain2 > 0 then
          -- maker partially filled: it stays in the book; here
          -- `matched_qty = taker_remain`, so `taker_remain2 = 0` and the next
          -- source iteration breaks immediately with this exact state.
          ⟨[trade], taker2, taker_remain2, maker2 :: rest⟩
        else if taker_order.tif = IOC ∧ taker2.state = PART_CANCELLED then
          -- source line 166: defensive break (never set inside the loop)
          ⟨[trade], taker2, taker_remain2, rest⟩
        else
          let r := matchLoop taker2 taker_remain2 now rest
          ⟨trade :: r.trades, r.taker, r.taker_remain, r.makers⟩

/-- Result of `MarketBook::match_book`: the trade batch, the final value of the
(consumed) `taker_order` variable, and the two books. -/
structure BookMatchResult where
  trades : List MatchTrade
  taker : Order
  maker_book : OrderBook
  taker_book : OrderBook
deriving DecidableEq

/-- `taker_book.add(taker_order).unwrap()`: the `Err` case (side mismatch) makes
the source panic and is unreachable from `try_match`, which always passes the
same-side book; the model leaves the book unchanged in that case. -/
def addUnwrap (b : OrderBook) (order : Order) : OrderBook :=
  match b.add order with
  | .ok b2 => b2
  | .error _ => b

/-- `MarketBook::match_book` from crates/core/src/market.rs (lines 86-201). -/
def match_book (taker_order : Order) (maker_book taker_book : OrderBook)
    (now : Nat) : BookMatchResult :=
  if taker_book.exist_by_key (OrderKey.new taker_order) then
    ⟨[], taker_order, maker_book, taker_book⟩
  else
    let r := matchLoop taker_order taker_order.remain now maker_book.orders
    let maker_book2 := { maker_book with orders := r.makers }
    if r.taker_remain > 0 then
      match r.taker.tif with
      | GTC =>
        match r.taker.ord_type with
        | LIMIT => ⟨r.trades, r.taker, maker_book2, addUnwrap taker_book r.taker⟩
        | MARKET => ⟨r.trades, r.taker, maker_book2, taker_book⟩
      | IOC =>
        if r.taker_remain = r.taker.qty then
          ⟨r.trades ++ [MatchTrade.new_taker_cancel r.taker.symbol r.taker.id now],
            r.taker.fill 0 CANCELED, maker_book2, taker_book⟩
        else
          ⟨r.trades ++ [MatchTrade.new_taker_part_cancel r.taker.symbol r.taker.id now],
            r.taker.fill 0 PART_CANCELLED, maker_book2, taker_book⟩
      | FOK =>
        ⟨r.trades ++ [MatchTrade.new_taker_cancel r.taker.symbol r.taker.id now],
          r.taker.fill 0 CANCELED, maker_book2, taker_book⟩
    else
      ⟨r.trades, r.taker, maker_book2, taker_book⟩

/-- `MarketBook` struct from crates/core/src/market.rs. -/
structure MarketBook where
  symbol : String
  buy : OrderBook
  sell : OrderBook
  px : ℚ
  ts : Nat
deriving DecidableEq

/-- `MarketBook::new` from crates/core/src/market.rs. -/
def MarketBook.new (symbol : String) (now : Nat) : MarketBook :=
  { symbol := symbol, buy := ⟨symbol, BUY, []⟩, sell := ⟨symbol, SELL, []⟩,
    px := 0, ts := now }

/-- Result of `MarketBook::try_match`: the trade batch (the source's return
value), the final value of the taker order (which the source drops), and the
updated market. -/
structure MatchOut where
  trades : List MatchTrade
  taker : Order
  market : MarketBook
deriving DecidableEq

/-- `MarketBook::try_match` from crates/core/src/market.rs (lines 54-66). -/
def MarketBook.try_match (m : MarketBook) (taker_order : Order) (now : Nat) :
    MatchOut :=
  let r :=
    match taker_order.side with
    | BUY => match_book taker_order m.sell m.buy now
    | SELL => match_book taker_order m.buy m.sell now
  let m2 :=
    match taker_order.side with
    | BUY => { m with sell := r.maker_book, buy := r.taker_book }
    | SELL => { m with buy := r.maker_book, sell := r.taker_book }
  -- 更新时间 / 更新最新成交价格
  let m3 := { m2 with ts := now }
  let m4 :=
    match r.trades.getLast? with
    | some trade => { m3 with px := trade.px }
    | none => m3
  ⟨r.trades, r.taker, m4⟩

/-- `MarketBook::cancel_book` from crates/core/src/market.rs (lines 68-84). -/
def cancel_book (book : OrderBook) (cancel : Order) (now : Nat) :
    List MatchTrade × OrderBook :=
  let order_key := OrderKey.new cancel
  match book.del_by_key order_key with
  | (some order, book2) =>
    if order.remain ≠ order.qty then
      ([MatchTrade.new_taker_part_cancel order.symbol order.id now], book2)
    else
      ([MatchTrade.new_taker_cancel order.symbol order.id now], book2)
  | (none, book2) => ([], book2)

/-- `MarketBook::try_cancel` from crates/core/src/market.rs (lines 46-51). -/
def MarketBook.try_cancel (m : MarketBook) (cancel : Order) (now : Nat) :
    List MatchTrade × MarketBook :=
  match cancel.side with
  | BUY =>
    let r := cancel_book m.buy cancel now
    (r.1, { m with buy := r.2 })
  | SELL =>
    let r := cancel_book m.sell cancel now
    (r.1, { m with sell := r.2 })

/-! ## Persistence model (crates/engine/src/cache.rs)

The Redis commands used by `CacheManager::add_if_absent` are modelled by an
explicit store state: sorted sets as association lists `member ↦ score` and
hashes as association lists `field ↦ value`.  An atomic pipeline is the
sequential execution of its commands on this state, collecting the integer
replies. -/

/-- The relevant Redis store state. -/
structure RedisState where
  zsets : List (String × List (String × Nat))
  hashes : List (String × List (String × String))
deriving DecidableEq

/-- Update-or-insert for a string-keyed association list. -/
def alistSet {α : Type} (k : String) (v : α) : List (String × α) → List (String × α)
| [] => [(k, v)]
| (k2, v2) :: rest => if k2 = k then (k2, v) :: rest else (k2, v2) :: alistSet k v rest

/-- Members (with scores) of the sorted set at `key` (empty if absent). -/
def RedisState.zmembers (st : RedisState) (key : String) : List (String × Nat) :=
  (st.zsets.lookup key).getD []

/-- Fields (with values) of the hash at `key` (empty if absent). -/
def RedisState.hfields (st : RedisState) (key : String) : List (String × String) :=
  (st.hashes.lookup key).getD []

/-- `ZADD key NX score member`: adds the member only if absent; the reply is
the number of added elements. -/
def zaddNX (st : RedisState) (key : String) (score : Nat) (member : String) :
    Int × RedisState :=
  let ms := st.zmembers key
  if (ms.lookup member).isSome then (0, st)
  else (1, { st with zsets := alistSet key (ms ++ [(member, score)]) st.zsets })

/-- `HSETNX key field value`: sets the field only if absent; the reply is 1 if
the field was set, 0 if it pre-existed. -/
def hsetNX (st : RedisState) (key field value : String) : Int × RedisState :=
  let fs := st.hfields key
  if (fs.lookup field).isSome then (0, st)
  else (1, { st with hashes := alistSet key (fs ++ [(field, value)]) st.hashes })

/-- `Display for TradeSide`. -/
def TradeSide.disp : TradeSide → String
| SELL => "SELL"
| BUY => "BUY"

/-- `Display for OrderType`. -/
def OrderType.disp : OrderType → String
| MARKET => "MARKET"
| LIMIT => "LIMIT"

/-- `Display for OrderState`. -/
def OrderState.disp : OrderState → String
| INIT => "INIT"
| LIVE => "LIVE"
| PART_FILLED => "PARTIAL_FILLED"
| PART_CANCELLED => "PARTIAL_CANCELLED"
| FULL_FILLED => "FULL_FILLED"
| CANCELED => "CANCELED"

/-- `Display for OrderTimeInForce`. -/
def OrderTimeInForce.disp : OrderTimeInForce → String
| GTC => "GTC"
| IOC => "IOC"
| FOK => "FOK"

/-- `Display for OrderAction`. -/
def OrderAction.disp : OrderAction → String
| PLACE => "PLACE"
| CANCEL => "CANCEL"

/-- `CacheManager::cache_key_id`. -/
def cache_key_id (symbol : String) : String :=
  "Loom:ID:" ++ symbol

/-- `CacheManager::cache_key_order`. -/
def cache_key_order (symbol : String) (id : Nat) : String :=
  "Loom:ORDER:" ++ symbol ++ ":" ++ toString id

/-- The 12 `HSETNX` commands of `CacheManager::add_if_absent`, in source
order: field name and the rendered value. -/
def orderFieldPairs (o : Order) : List (String × String) :=
  [("id", toString o.id), ("symbol", o.symbol), ("side", o.side.disp),
   ("qty", toString o.qty), ("price", toString o.price),
   ("acc_fill_qty", toString o.acc_fill_qty), ("ord_type", o.ord_type.disp),
   ("ts", toString o.ts), ("update_ts", toString o.update_ts),
   ("state", o.state.disp), ("tif", o.tif.disp), ("action", o.action.disp)]

/-- Run a sequence of `HSETNX key field value` commands, collecting replies. -/
def hsetnxAll (st : RedisState) (key : String) :
    List (String × String) → List Int × RedisState
| [] => ([], st)
| (f, v) :: rest =>
  let r1 := hsetNX st key f v
  let r2 := hsetnxAll r1.2 key rest
  (r1.1 :: r2.1, r2.2)

/-- `CacheManager::add_if_absent` from crates/engine/src/cache.rs (lines
57-80): the atomic pipeline `ZADD NX` + 12 × `HSETNX`, whose reply vector is
`resp`; the result is `resp[0] == 1 && resp[1] == 1` (with `false` for a
missing reply), exactly as in the source. -/
def CacheManager.add_if_absent (st : RedisState) (order : Order) :
    Bool × RedisState :=
  let id_key := cache_key_id order.symbol
  let order_key := cache_key_order order.symbol order.id
  let r0 := zaddNX st id_key order.ts (toString order.id)
  let rs := hsetnxAll r0.2 order_key (orderFieldPairs order)
  let resp : List Int := r0.1 :: rs.1
  (((resp.get? 0).map (fun i => i == 1)).getD false &&
     ((resp.get? 1).map (fun i => i == 1)).getD false,
   rs.2)

/-- `CacheManager::del` from crates/engine/src/cache.rs: atomic
`ZREM id_key id` + `DEL order_key`. -/
def CacheManager.del (st : RedisState) (order : Order) : RedisState :=
  let id_key := cache_key_id order.symbol
  let order_key := cache_key_order order.symbol order.id
  let ms := st.zmembers id_key
  { zsets := alistSet id_key (ms.filter (fun p => p.1 ≠ toString order.id)) st.zsets,
    hashes := st.hashes.filter (fun p => p.1 ≠ order_key) }

/-! ## Engine model (crates/engine/src/engine.rs, crates/engine/src/trader.rs)

Only the state that `MatchEngine::feed` and `MatchEngine::shutdown` read or
write is modelled: the trader registry (each trader abstracted to its request
queue and the open/closed state of that mpsc channel), the collection of
worker handles (abstracted to their count), and the `is_shutdown` flag.  A
worker task (trader.rs `launch`) holds one subscription to the broadcast
channel until it exits, and calls `receiver.close()` exactly when it exits; so
a trader's worker is live iff its request channel is still open, and
`ctx.send(true)` in `shutdown` succeeds iff some trader's channel is still
open (tokio's `broadcast::Sender::send` errors when no active receiver
remains, and the source unwraps that result — modelled as `none`, a panic). -/

/-- `Trader`, abstracted to its pending request queue and the closed state of
its request channel (`receiver.close()` has run, i.e. the worker exited). -/
structure Trader where
  symbol : String
  queue : List Order
  closed : Bool
deriving DecidableEq

/-- `Trader::feed`: `self.req_sender.send(order).await?`.  Sending on the
request channel fails once the worker has called `receiver.close()`; tokio's
mpsc `SendError` displays as "channel closed". -/
def Trader.feed (t : Trader) (order : Order) : Except String Trader :=
  if t.closed then .error "channel closed"
  else .ok { t with queue := t.queue ++ [order] }

/-- `MatchEngine` state from crates/engine/src/engine.rs. -/
structure MatchEngine where
  traders : List (String × Trader)
  handlers : Nat
  is_shutdown : Bool
deriving DecidableEq

/-- `MatchEngine::new`. -/
def MatchEngine.new : MatchEngine :=
  { traders := [], handlers := 0, is_shutdown := false }

/-- `MatchEngine::feed` from crates/engine/src/engine.rs (lines 70-91).  The
persistence state is threaded explicitly. -/
def MatchEngine.feed (e : MatchEngine) (st : RedisState) (order : Order) :
    Except String (MatchEngine × RedisState) :=
  if e.is_shutdown then
    .error "engine stopping or stopped"
  else
    let afterCache : Except String RedisState :=
      match order.action with
      | PLACE =>
        let r := CacheManager.add_if_absent st order
        if ¬ r.1 then .error "order existed" else .ok r.2
      | CANCEL => .ok st
    match afterCache with
    | .error msg => .error msg
    | .ok st2 =>
      match e.traders.lookup order.symbol with
      | some t =>
        match t.feed order with
        | .error msg => .error msg
        | .ok t2 => .ok ({ e with traders := alistSet order.symbol t2 e.traders }, st2)
      | none => .ok (e, st2)

/-- `MatchEngine::shutdown` from crates/engine/src/engine.rs (lines 94-103):
when the flag is unset, broadcast the stop signal with
`ctx.send(true).unwrap()` and drain/await all worker handles.  The send
succeeds iff some worker is still subscribed (its channel still open); then
every live worker receives the signal, exits and closes its request channel,
and awaiting the drained handles completes.  With no live worker the send
errors and the `unwrap` panics (`none`).  The source never assigns
`is_shutdown`; this model reproduces that faithfully. -/
def MatchEngine.shutdown (e : MatchEngine) : Option MatchEngine :=
  if ¬ e.is_shutdown then
    if e.traders.any (fun p => !p.2.closed) then
      some { e with
             traders := e.traders.map (fun p => (p.1, { p.2 with closed := true })),
             handlers := 0 }
    else
      none
  else
    some e

/-! ## Specification helpers -/

/-- The book of the given side (the taker-side book for an order of that
side). -/
def MarketBook.same_side_book (m : MarketBook) (side : TradeSide) : OrderBook :=
  match side with
  | BUY => m.buy
  | SELL => m.sell

/-- The book opposite to the given side (the maker book for a taker of that
side). -/
def MarketBook.opp_book (m : MarketBook) (side : TradeSide) : OrderBook :=
  match side with
  | BUY => m.sell
  | SELL => m.buy

/-- The `match_book` call performed by `MarketBook::try_match` for the given
taker. -/
def mbr (m : MarketBook) (taker : Order) (now : Nat) : BookMatchResult :=
  match taker.side with
  | BUY => match_book taker m.sell m.buy now
  | SELL => match_book taker m.buy m.sell now

/-- Strict key order between two orders, as used by the maps of the books. -/
def keyLt (a b : Order) : Prop :=
  (OrderKey.new a).cmp (OrderKey.new b) = .lt

/-- Well-formedness of a one-sided book: all orders carry the book's side and
the list is strictly ascending in the key order (the `BTreeMap` invariant). -/
def OrderBook.wf (b : OrderBook) : Prop :=
  (∀ o ∈ b.orders, o.side = b.side) ∧ List.Chain' keyLt b.orders

/-- Lookup of the map entry with the given key (key equality is `cmp = .eq`). -/
def findByKey (key : OrderKey) (l : List Order) : Option Order :=
  l.find? (fun o => (OrderKey.new o).cmp key == .eq)

/-- The persisted order record at `key` is not torn: if any field is present
then the guard field `id` is present.  All states reachable through
`CacheManager` operations satisfy this (see the preservation lemmas below). -/
def recordNotTorn (st : RedisState) (key : String) : Prop :=
  ∀ f, ((st.hfields key).lookup f).isSome → ((st.hfields key).lookup "id").isSome

/-! ## Sample data (used by the witness theorems) -/

/-- A fresh order with the given parameters (remaining fields as the ingress
constructs them). -/
def mkOrder (id : Nat) (side : TradeSide) (qty : Nat) (px : ℚ)
    (ot : OrderType) (tif : OrderTimeInForce) (action : OrderAction) : Order :=
  { id := id, symbol := "S", side := side, qty := qty, price := px,
    acc_fill_qty := 0, ord_type := ot, ts := 1, update_ts := 1, state := INIT,
    tif := tif, action := action }

def dupTaker : Order := mkOrder 1 BUY 5 100 LIMIT GTC PLACE

def bookB : OrderBook := ⟨"S", BUY, [dupTaker]⟩

def mktDup : MarketBook := ⟨"S", bookB, ⟨"S", SELL, []⟩, 0, 0⟩

def engineEx : MatchEngine :=
  { traders := [("S", ⟨"S", [], false⟩)], handlers := 1, is_shutdown := false }

/-- `engineEx` after one completed `shutdown`: the worker exited and closed
its request channel, the handles are drained, the flag is still unset. -/
def engineExDown : MatchEngine :=
  { traders := [("S", ⟨"S", [], true⟩)], handlers := 0, is_shutdown := false }

def cancelEx : Order := mkOrder 7 BUY 5 100 LIMIT GTC CANCEL

/-- A cancel for a symbol with no registered trader. -/
def cancelNoTrader : Order := { mkOrder 7 BUY 5 100 LIMIT GTC CANCEL with symbol := "T" }

instance keyLtDec (a b : Order) : Decidable (keyLt a b) :=
  inferInstanceAs (Decidable (_ = _))

def headTestBook : OrderBook :=
  ⟨"S", SELL, [mkOrder 1 SELL 2 100 LIMIT GTC PLACE, mkOrder 2 SELL 2 101 LIMIT GTC PLACE]⟩

def restingSell : Order := mkOrder 1 SELL 3 100 LIMIT GTC PLACE

def mktCancel : MarketBook := ⟨"S", ⟨"S", BUY, []⟩, ⟨"S", SELL, [restingSell]⟩, 0, 0⟩

def cancelHit : Order := mkOrder 1 SELL 3 100 LIMIT GTC CANCEL

def cancelWrongPx : Order := mkOrder 1 SELL 3 101 LIMIT GTC CANCEL

def orderC4 : Order := mkOrder 1 SELL 3 100 LIMIT GTC PLACE

def takerFok : Order := mkOrder 2 BUY 5 100 LIMIT FOK PLACE

def takerW : Order := mkOrder 2 BUY 5 100 LIMIT GTC PLACE

def tradeW : MatchTrade :=
  { symbol := "S", qty := 3, px := 100, taker_oid := 2, maker_oid := 1,
    taker_state := PART_FILLED, maker_state := FULL_FILLED, ts := 7 }

def takerIoc : Order := mkOrder 2 BUY 5 100 LIMIT IOC PLACE

/-! ## Basic lemmas -/

lemma fill_can_trade (o : Order) (q : Nat) (s : OrderState) (x : Order) :
    (o.fill q s).can_trade x = o.can_trade x := rfl

lemma matchLoop_zero (t : Order) (now : Nat) (ms : List Order) :
    matchLoop t 0 now ms = ⟨[], t, 0, ms⟩ := by
  cases ms <;> rfl

/-- `try_match` decomposed into the underlying `match_book` call. -/
lemma try_match_parts (m : MarketBook) (taker : Order) (now : Nat) :
    m.try_match taker now =
      { trades := (mbr m taker now).trades
        taker := (mbr m taker now).taker
        market :=
          { symbol := m.symbol
            buy := match taker.side with
              | BUY => (mbr m taker now).taker_book
              | SELL => (mbr m taker now).maker_book
            sell := match taker.side with
              | BUY => (mbr m taker now).maker_book
              | SELL => (mbr m taker now).taker_book
            px := match (mbr m taker now).trades.getLast? with
              | some t => t.px
              | none => m.px
            ts := now } } := by
  unfold MarketBook.try_match mbr
  cases h : taker.side
  · dsimp only
    cases hl : (match_book taker m.buy m.sell now).trades.getLast? <;> simp [hl]
  · dsimp only
    cases hl : (match_book taker m.sell m.buy now).trades.getLast? <;> simp [hl]

/-- If the taker's key is already in the taker-side book, `match_book` returns
an empty batch and leaves everything unchanged (source lines 91-94). -/
lemma match_book_dup (taker : Order) (mb tb : OrderBook) (now : Nat)
    (h : tb.exist_by_key (OrderKey.new taker) = true) :
    match_book taker mb tb now = ⟨[], taker, mb, tb⟩ := by
  unfold match_book
  simp [h]

/-! ## Claims -/

/-- C2: every `MarketBook::try_match` call sets the book timestamp `ts` to the
current time; the last trade price `px` is set to the price of the last
element of the returned batch when the batch is non-empty, and a match attempt
that emits no trades leaves `px` unchanged. -/
theorem try_match_ts_px (m : MarketBook) (taker : Order) (now : Nat)
    (R : MatchOut) (hR : R = m.try_match taker now) :
    R.market.ts = now
    ∧ (R.trades = [] → R.market.px = m.px)
    ∧ (∀ t, R.trades.getLast? = some t → R.market.px = t.px) := by
  subst hR
  rw [try_match_parts]
  refine ⟨rfl, fun h => ?_, fun t ht => ?_⟩
  · have h2 : (mbr m taker now).trades = [] := h
    simp [h2]
  · have h2 : (mbr m taker now).trades.getLast? = some t := ht
    simp [h2]

theorem try_match_ts_px_witness :
    (mktDup.try_match dupTaker 3).market.ts = 3
    ∧ ((mktDup.try_match dupTaker 3).trades = [] →
        (mktDup.try_match dupTaker 3).market.px = mktDup.px)
    ∧ (∀ t, (mktDup.try_match dupTaker 3).trades.getLast? = some t →
        (mktDup.try_match dupTaker 3).market.px = t.px) :=
  try_match_ts_px mktDup dupTaker 3 _ rfl

/-- C3: `MatchEngine::shutdown` broadcasts and awaits the worker handles but
never assigns the shutting-down flag: whenever it returns, the flag is
unchanged.  On an engine with one registered trader a completed shutdown
leaves the flag false; a second `shutdown` call then re-enters the broadcast
branch and panics on `ctx.send(true).unwrap()` (no live receiver remains), so
it is not a harmless no-op; and a later feed whose symbol has no registered
trader passes the never-set guard, skips the routing step and returns `Ok`,
while a feed routed to the registered trader fails — but with the
closed-channel send error, not the guard's error.  This contradicts the
claim's flag, idempotence and every-feed-fails conjuncts. -/
theorem shutdown_flag_never_set :
    (∀ e e2 : MatchEngine, e.shutdown = some e2 → e2.is_shutdown = e.is_shutdown)
    ∧ engineEx.shutdown = some engineExDown
    ∧ engineExDown.is_shutdown = false
    ∧ engineExDown.shutdown = none
    ∧ engineExDown.feed ⟨[], []⟩ cancelNoTrader = .ok (engineExDown, ⟨[], []⟩)
    ∧ engineExDown.feed ⟨[], []⟩ cancelEx = .error "channel closed" := by
  refine ⟨fun e e2 h => ?_, by rfl, by rfl, by rfl, by rfl, by rfl⟩
  unfold MatchEngine.shutdown at h
  split_ifs at h with h1 h2
  · have h3 := Option.some.inj h
    subst h3
    rfl
  · have h3 := Option.some.inj h
    subst h3
    rfl

theorem shutdown_flag_never_set_witness :
    engineEx.shutdown = some engineExDown
    ∧ engineExDown.is_shutdown = engineEx.is_shutdown :=
  ⟨by rfl, shutdown_flag_never_set.1 engineEx engineExDown (by rfl)⟩

/-- C9: duplicate suppression is idempotent by OrderKey: a taker whose key is
already in the same-side book yields an empty batch and leaves both books
unchanged, and `OrderBook::add` of an order whose key already exists is a
no-op success. -/
theorem dup_suppression :
    (∀ (m : MarketBook) (taker : Order) (now : Nat),
        (m.same_side_book taker.side).exist_by_key (OrderKey.new taker) = true →
        (m.try_match taker now).trades = []
        ∧ (m.try_match taker now).market.buy = m.buy
        ∧ (m.try_match taker now).market.sell = m.sell)
    ∧ (∀ (b : OrderBook) (order : Order), order.side = b.side →
        b.exist_by_key (OrderKey.new order) = true → b.add order = .ok b) := by
  constructor
  · intro m taker now h
    rw [try_match_parts]
    cases hs : taker.side <;>
      (rw [hs] at h
       simp only [MarketBook.same_side_book] at h
       simp [mbr, hs, match_book_dup taker _ _ now h])
  · intro b order hside h
    unfold OrderBook.add
    simp [hside, h]

theorem dup_suppression_witness :
    (mktDup.same_side_book dupTaker.side).exist_by_key (OrderKey.new dupTaker) = true
    ∧ (mktDup.try_match dupTaker 3).trades = []
    ∧ (mktDup.try_match dupTaker 3).market.buy = mktDup.buy
    ∧ (mktDup.try_match dupTaker 3).market.sell = mktDup.sell
    ∧ dupTaker.side = bookB.side
    ∧ bookB.add dupTaker = .ok bookB :=
  ⟨by decide,
   (dup_suppression.1 mktDup dupTaker 3 (by decide)).1,
   (dup_suppression.1 mktDup dupTaker 3 (by decide)).2.1,
   (dup_suppression.1 mktDup dupTaker 3 (by decide)).2.2,
   by decide,
   dup_suppression.2 bookB dupTaker (by decide) (by decide)⟩

/-! ## Ordering lemmas for C5 -/

@[simp] lemma OrderKey.new_price (o : Order) : (OrderKey.new o).price = o.price := rfl

@[simp] lemma OrderKey.new_seq (o : Order) : (OrderKey.new o).sequence_id = o.id := rfl

@[simp] lemma OrderKey.new_side (o : Order) : (OrderKey.new o).side = o.side := rfl

lemma cmpPx_lt_iff (a b : ℚ) : cmpPx a b = .lt ↔ a < b := by
  unfold cmpPx
  split_ifs with h1 h2 <;> simp_all

lemma cmpPx_eq_iff (a b : ℚ) : cmpPx a b = .eq ↔ a = b := by
  unfold cmpPx
  split_ifs with h1 h2 <;> simp_all
  exact ne_of_lt h1

lemma cmpPx_gt_iff (a b : ℚ) : cmpPx a b = .gt ↔ b < a := by
  unfold cmpPx
  split_ifs with h1 h2
  · simp [asymm h1]
  · simp [h2]
  · simp [lt_of_le_of_ne (not_lt.mp h1) (fun hh => h2 hh.symm)]

lemma cmpN_lt_iff (a b : Nat) : cmpN a b = .lt ↔ a < b := by
  unfold cmpN
  split_ifs with h1 h2 <;> simp_all

/-- BUY-side key order: higher price first, then lower sequence id. -/
lemma cmp_lt_buy (k1 k2 : OrderKey) (h2 : k2.side = BUY) :
    k1.cmp k2 = .lt ↔
      (k2.price < k1.price ∨ (k1.price = k2.price ∧ k1.sequence_id < k2.sequence_id)) := by
  unfold OrderKey.cmp
  rw [h2]
  dsimp only
  cases hc : cmpPx k2.price k1.price
  · simp only [hc]
    rw [cmpPx_lt_iff] at hc
    simp [hc, ne_of_gt hc]
  · simp only [hc]
    rw [cmpPx_eq_iff] at hc
    simp [cmpN_lt_iff, hc, lt_irrefl]
  · simp only [hc]
    rw [cmpPx_gt_iff] at hc
    simp [asymm hc, ne_of_lt hc]

/-- SELL-side key order: lower price first, then lower sequence id. -/
lemma cmp_lt_sell (k1 k2 : OrderKey) (h2 : k2.side = SELL) :
    k1.cmp k2 = .lt ↔
      (k1.price < k2.price ∨ (k1.price = k2.price ∧ k1.sequence_id < k2.sequence_id)) := by
  unfold OrderKey.cmp
  rw [h2]
  dsimp only
  cases hc : cmpPx k1.price k2.price
  · simp only [hc]
    rw [cmpPx_lt_iff] at hc
    simp [hc, ne_of_lt hc]
  · simp only [hc]
    rw [cmpPx_eq_iff] at hc
    simp [cmpN_lt_iff, hc, lt_irrefl]
  · simp only [hc]
    rw [cmpPx_gt_iff] at hc
    simp [asymm hc, ne_of_gt hc]

/-- Key equality under `cmp` is price and sequence-id equality. -/
lemma cmp_eq_iff (k1 k2 : OrderKey) :
    k1.cmp k2 = .eq ↔ (k1.price = k2.price ∧ k1.sequence_id = k2.sequence_id) := by
  unfold OrderKey.cmp cmpN
  cases k2.side <;> dsimp only
  · cases hc : cmpPx k1.price k2.price
    · rw [cmpPx_lt_iff] at hc
      simp [ne_of_lt hc]
    · rw [cmpPx_eq_iff] at hc
      split_ifs with g1 g2 <;> simp_all
      exact ne_of_lt g1
    · rw [cmpPx_gt_iff] at hc
      simp [ne_of_gt hc]
  · cases hc : cmpPx k2.price k1.price
    · rw [cmpPx_lt_iff] at hc
      simp [ne_of_gt hc]
    · rw [cmpPx_eq_iff] at hc
      split_ifs with g1 g2 <;> simp_all
      exact ne_of_lt g1
    · rw [cmpPx_gt_iff] at hc
      simp [ne_of_lt hc]

/-- The key order is transitive among orders of one common side. -/
lemma keyLt_trans_side (s : TradeSide) (a b c : Order)
    (ha : a.side = s) (hb : b.side = s) (hc : c.side = s) :
    keyLt a b → keyLt b c → keyLt a c := by
  unfold keyLt
  cases s
  · rw [cmp_lt_sell _ _ (by simp [hb]), cmp_lt_sell _ _ (by simp [hc]),
      cmp_lt_sell _ _ (by simp [hc])]
    simp only [OrderKey.new_price, OrderKey.new_seq]
    rintro (h1 | ⟨h1, h1i⟩) (h2 | ⟨h2, h2i⟩)
    · exact Or.inl (lt_trans h1 h2)
    · exact Or.inl (h2 ▸ h1)
    · exact Or.inl (h1 ▸ h2)
    · exact Or.inr ⟨h1.trans h2, Nat.lt_trans h1i h2i⟩
  · rw [cmp_lt_buy _ _ (by simp [hb]), cmp_lt_buy _ _ (by simp [hc]),
      cmp_lt_buy _ _ (by simp [hc])]
    simp only [OrderKey.new_price, OrderKey.new_seq]
    rintro (h1 | ⟨h1, h1i⟩) (h2 | ⟨h2, h2i⟩)
    · exact Or.inl (lt_trans h2 h1)
    · exact Or.inl (h2 ▸ h1)
    · exact Or.inl (h1 ▸ h2)
    · exact Or.inr ⟨h1.trans h2, Nat.lt_trans h1i h2i⟩

/-- In a chain of same-side orders the head is key-below every later order. -/
lemma chain_head_keyLt (s : TradeSide) (o : Order) (rest : List Order)
    (hside : ∀ x ∈ o :: rest, x.side = s)
    (hchain : List.Chain' keyLt (o :: rest)) :
    ∀ x ∈ rest, keyLt o x := by
  induction rest generalizing o with
  | nil => simp
  | cons y ys ih =>
    intro x hx
    rcases List.chain'_cons.mp hchain with ⟨hoy, hchain2⟩
    rcases List.mem_cons.mp hx with rfl | hx2
    · exact hoy
    · have hy := ih y (fun z hz => hside z (List.mem_cons_of_mem _ hz)) hchain2 x hx2
      exact keyLt_trans_side s o y x (hside o (List.mem_cons_self _ _))
        (hside y (List.mem_cons_of_mem _ (List.mem_cons_self _ _)))
        (hside x (List.mem_cons_of_mem _ hx)) hoy hy

/-- C5: the OrderKey total order sorts BUY keys by higher price first and SELL
keys by lower price first, equal prices tie-broken by lower sequence id; hence
in a well-formed book, `head` returns the order with the best price (then
lowest id), i.e. the order the matching loop consumes first. -/
theorem orderkey_priority_head :
    (∀ k1 k2 : OrderKey, k1.side = BUY → k2.side = BUY →
       (k1.cmp k2 = .lt ↔
         (k2.price < k1.price ∨ (k1.price = k2.price ∧ k1.sequence_id < k2.sequence_id))))
    ∧ (∀ k1 k2 : OrderKey, k1.side = SELL → k2.side = SELL →
       (k1.cmp k2 = .lt ↔
         (k1.price < k2.price ∨ (k1.price = k2.price ∧ k1.sequence_id < k2.sequence_id))))
    ∧ (∀ (b : OrderBook) (o : Order) (rest : List Order), b.wf →
        b.orders = o :: rest →
        b.head = some o ∧ ∀ x ∈ rest,
          (b.side = BUY → (x.price < o.price ∨ (o.price = x.price ∧ o.id < x.id)))
          ∧ (b.side = SELL → (o.price < x.price ∨ (o.price = x.price ∧ o.id < x.id)))) := by
  refine ⟨fun k1 k2 _ h2 => cmp_lt_buy k1 k2 h2,
    fun k1 k2 _ h2 => cmp_lt_sell k1 k2 h2, ?_⟩
  intro b o rest hwf horders
  rcases hwf with ⟨hside, hchain⟩
  rw [horders] at hside hchain
  constructor
  · unfold OrderBook.head
    rw [horders]
    rfl
  · intro x hx
    have hlt := chain_head_keyLt b.side o rest hside hchain x hx
    unfold keyLt at hlt
    constructor
    · intro hb
      rw [cmp_lt_buy _ _ (by simp [hside x (List.mem_cons_of_mem _ hx), hb])] at hlt
      simpa using hlt
    · intro hb
      rw [cmp_lt_sell _ _ (by simp [hside x (List.mem_cons_of_mem _ hx), hb])] at hlt
      simpa using hlt

theorem orderkey_priority_head_witness :
    (OrderKey.mk 2 100 BUY).side = BUY
    ∧ ((OrderKey.mk 2 100 BUY).cmp (OrderKey.mk 1 99 BUY) = .lt ↔
        ((99 : ℚ) < 100 ∨ ((100 : ℚ) = 99 ∧ 2 < 1)))
    ∧ headTestBook.wf
    ∧ headTestBook.orders =
        mkOrder 1 SELL 2 100 LIMIT GTC PLACE :: [mkOrder 2 SELL 2 101 LIMIT GTC PLACE]
    ∧ headTestBook.head = some (mkOrder 1 SELL 2 100 LIMIT GTC PLACE) :=
  ⟨rfl,
   orderkey_priority_head.1 (OrderKey.mk 2 100 BUY) (OrderKey.mk 1 99 BUY) rfl rfl,
   by constructor
      · intro o ho
        fin_cases ho <;> rfl
      · exact List.chain'_pair.mpr (by decide),
   rfl,
   (orderkey_priority_head.2.2 headTestBook (mkOrder 1 SELL 2 100 LIMIT GTC PLACE)
      [mkOrder 2 SELL 2 101 LIMIT GTC PLACE]
      ⟨by intro o ho; fin_cases ho <;> rfl, List.chain'_pair.mpr (by decide)⟩ rfl).1⟩

/-! ## Cancellation lemmas (C8, C10) -/

lemma removeByKey_none_of_find (key : OrderKey) (l : List Order)
    (h : findByKey key l = none) : removeByKey key l = (none, l) := by
  induction l with
  | nil => rfl
  | cons x xs ih =>
    unfold findByKey at h
    have hx : ((OrderKey.new x).cmp key == .eq) = false := by
      have := List.find?_eq_none.mp h x (List.mem_cons_self _ _)
      simpa using this
    have hxs : findByKey key xs = none := by
      unfold findByKey
      exact List.find?_eq_none.mpr fun y hy => List.find?_eq_none.mp h y (List.mem_cons_of_mem _ hy)
    unfold removeByKey
    rw [ih hxs]
    simp [hx]

lemma removeByKey_split (key : OrderKey) (l : List Order) (o : Order)
    (h : findByKey key l = some o) :
    ∃ l1 l2, l = l1 ++ o :: l2 ∧ removeByKey key l = (some o, l1 ++ l2) := by
  induction l with
  | nil => simp [findByKey] at h
  | cons x xs ih =>
    by_cases hx : ((OrderKey.new x).cmp key == .eq) = true
    · have hox : o = x := by
        unfold findByKey at h
        rw [List.find?_cons_of_pos (p := fun o => (OrderKey.new o).cmp key == Ordering.eq) xs hx] at h
        exact (Option.some.injEq _ _ ▸ h).symm
      subst hox
      refine ⟨[], xs, rfl, ?_⟩
      unfold removeByKey
      simp [hx]
    · have h2 : findByKey key xs = some o := by
        unfold findByKey at h ⊢
        rwa [List.find?_cons_of_neg (p := fun o => (OrderKey.new o).cmp key == Ordering.eq) xs hx] at h
      rcases ih h2 with ⟨l1, l2, heq, hr⟩
      refine ⟨x :: l1, l2, by rw [heq]; rfl, ?_⟩
      unfold removeByKey
      simp [hx, hr]

/-- A cancel whose key misses leaves the book unchanged and emits nothing. -/
lemma cancel_book_miss (b : OrderBook) (cancel : Order) (now : Nat)
    (h : findByKey (OrderKey.new cancel) b.orders = none) :
    cancel_book b cancel now = ([], b) := by
  unfold cancel_book OrderBook.del_by_key
  dsimp only
  rw [removeByKey_none_of_find _ _ h]

/-- A cancel whose key hits removes exactly that entry and emits exactly one
event, partial-cancel iff the resting order had fills. -/
lemma cancel_book_hit (b : OrderBook) (cancel : Order) (now : Nat) (o : Order)
    (h : findByKey (OrderKey.new cancel) b.orders = some o) :
    ∃ l1 l2, b.orders = l1 ++ o :: l2
      ∧ cancel_book b cancel now =
          ([if o.remain ≠ o.qty
            then MatchTrade.new_taker_part_cancel o.symbol o.id now
            else MatchTrade.new_taker_cancel o.symbol o.id now],
           { b with orders := l1 ++ l2 }) := by
  rcases removeByKey_split _ _ o h with ⟨l1, l2, heq, hr⟩
  refine ⟨l1, l2, heq, ?_⟩
  unfold cancel_book OrderBook.del_by_key
  dsimp only
  rw [hr]
  by_cases hq : o.remain ≠ o.qty <;> simp [hq]

/-- `try_cancel` decomposed into the `cancel_book` call on the side's book. -/
lemma try_cancel_parts (m : MarketBook) (cancel : Order) (now : Nat) :
    m.try_cancel cancel now =
      ((cancel_book (m.same_side_book cancel.side) cancel now).1,
       match cancel.side with
       | BUY => { m with buy := (cancel_book m.buy cancel now).2 }
       | SELL => { m with sell := (cancel_book m.sell cancel now).2 }) := by
  unfold MarketBook.try_cancel
  cases cancel.side <;> rfl

/-- C8: `try_cancel` looks up the full OrderKey in the book of the request's
side; a hit removes the resting order and emits exactly one event —
PARTIAL_CANCELLED when the order had prior fills (`remain() != qty`),
CANCELED otherwise — while a miss returns an empty batch and leaves the market
unchanged. -/
theorem try_cancel_spec (m : MarketBook) (cancel : Order) (now : Nat) :
    (findByKey (OrderKey.new cancel) (m.same_side_book cancel.side).orders = none →
       m.try_cancel cancel now = ([], m))
    ∧ (∀ o, findByKey (OrderKey.new cancel) (m.same_side_book cancel.side).orders = some o →
       (m.try_cancel cancel now).1 =
         [if o.remain ≠ o.qty
          then MatchTrade.new_taker_part_cancel o.symbol o.id now
          else MatchTrade.new_taker_cancel o.symbol o.id now]
       ∧ (∃ l1 l2, (m.same_side_book cancel.side).orders = l1 ++ o :: l2
            ∧ ((m.try_cancel cancel now).2.same_side_book cancel.side).orders = l1 ++ l2)
       ∧ (m.try_cancel cancel now).2.opp_book cancel.side = m.opp_book cancel.side
       ∧ (m.try_cancel cancel now).2.px = m.px
       ∧ (m.try_cancel cancel now).2.ts = m.ts) := by
  constructor
  · intro h
    rw [try_cancel_parts]
    cases hs : cancel.side <;>
      (rw [hs] at h
       simp only [MarketBook.same_side_book] at h ⊢
       rw [cancel_book_miss _ _ _ h])
  · intro o h
    rw [try_cancel_parts]
    cases hs : cancel.side
    · rw [hs] at h
      simp only [MarketBook.same_side_book, MarketBook.opp_book] at h ⊢
      rcases cancel_book_hit m.sell cancel now o h with ⟨l1, l2, heq, hcb⟩
      rw [hcb]
      refine ⟨rfl, ⟨l1, l2, heq, rfl⟩, ?_, ?_, ?_⟩ <;> trivial
    · rw [hs] at h
      simp only [MarketBook.same_side_book, MarketBook.opp_book] at h ⊢
      rcases cancel_book_hit m.buy cancel now o h with ⟨l1, l2, heq, hcb⟩
      rw [hcb]
      refine ⟨rfl, ⟨l1, l2, heq, rfl⟩, ?_, ?_, ?_⟩ <;> trivial

theorem try_cancel_spec_witness :
    findByKey (OrderKey.new cancelHit) (mktCancel.same_side_book cancelHit.side).orders
      = some restingSell
    ∧ (mktCancel.try_cancel cancelHit 9).1 =
        [if restingSell.remain ≠ restingSell.qty
         then MatchTrade.new_taker_part_cancel restingSell.symbol restingSell.id 9
         else MatchTrade.new_taker_cancel restingSell.symbol restingSell.id 9]
    ∧ (mktCancel.try_cancel cancelHit 9).2.px = mktCancel.px :=
  ⟨by decide,
   ((try_cancel_spec mktCancel cancelHit 9).2 restingSell (by decide)).1,
   ((try_cancel_spec mktCancel cancelHit 9).2 restingSell (by decide)).2.2.2.1⟩

/-- C10: cancellation matches on the full OrderKey, not on id alone: if every
order of the cancel-side book that shares the cancel's id has a different
price (in particular when the cancel's price is wrong, or when the resting
order with that id lives on the other side and no same-key entry exists), the
lookup misses, the cancel is silently ignored with an empty batch, and the
resting order stays in its book. -/
theorem cancel_requires_full_key :
    (∀ (m : MarketBook) (cancel resting : Order) (now : Nat),
       resting ∈ (m.same_side_book cancel.side).orders →
       resting.id = cancel.id →
       (∀ o ∈ (m.same_side_book cancel.side).orders,
          o.id = cancel.id → o.price ≠ cancel.price) →
       m.try_cancel cancel now = ([], m)
       ∧ resting ∈ ((m.try_cancel cancel now).2.same_side_book cancel.side).orders)
    ∧ (∀ (m : MarketBook) (cancel resting : Order) (now : Nat) (s : TradeSide),
       resting ∈ (m.same_side_book s).orders →
       s ≠ cancel.side →
       resting.id = cancel.id →
       (∀ o ∈ (m.same_side_book cancel.side).orders,
          ¬ (o.id = cancel.id ∧ o.price = cancel.price)) →
       m.try_cancel cancel now = ([], m)
       ∧ resting ∈ ((m.try_cancel cancel now).2.same_side_book s).orders) := by
  have hmiss : ∀ (m : MarketBook) (cancel : Order) (now : Nat),
      (∀ o ∈ (m.same_side_book cancel.side).orders,
         ¬ (o.id = cancel.id ∧ o.price = cancel.price)) →
      m.try_cancel cancel now = ([], m) := by
    intro m cancel now hno
    have hfind : findByKey (OrderKey.new cancel) (m.same_side_book cancel.side).orders = none := by
      unfold findByKey
      refine List.find?_eq_none.mpr fun o ho => ?_
      intro hp
      have hcmp : (OrderKey.new o).cmp (OrderKey.new cancel) = Ordering.eq := by
        cases hcm : (OrderKey.new o).cmp (OrderKey.new cancel)
        · rw [hcm] at hp
          exact absurd hp (by decide)
        · rfl
        · rw [hcm] at hp
          exact absurd hp (by decide)
      have heq := (cmp_eq_iff (OrderKey.new o) (OrderKey.new cancel)).mp hcmp
      simp only [OrderKey.new_price, OrderKey.new_seq] at heq
      exact hno o ho ⟨heq.2, heq.1⟩
    rw [try_cancel_parts]
    cases hs : cancel.side <;>
      (rw [hs] at hfind
       simp only [MarketBook.same_side_book] at hfind ⊢
       rw [cancel_book_miss _ _ _ hfind])
  constructor
  · intro m cancel resting now hmem hid hno
    have h := hmiss m cancel now (fun o ho hop => hno o ho hop.1 hop.2)
    refine ⟨h, ?_⟩
    rw [h]
    exact hmem
  · intro m cancel resting now s hmem hside hid hno
    have h := hmiss m cancel now hno
    refine ⟨h, ?_⟩
    rw [h]
    exact hmem

theorem cancel_requires_full_key_witness :
    restingSell ∈ (mktCancel.same_side_book cancelWrongPx.side).orders
    ∧ restingSell.id = cancelWrongPx.id
    ∧ mktCancel.try_cancel cancelWrongPx 9 = ([], mktCancel)
    ∧ restingSell ∈
        ((mktCancel.try_cancel cancelWrongPx 9).2.same_side_book cancelWrongPx.side).orders :=
  ⟨by decide, by decide,
   (cancel_requires_full_key.1 mktCancel cancelWrongPx restingSell 9 (by decide) (by decide)
      (by decide)).1,
   (cancel_requires_full_key.1 mktCancel cancelWrongPx restingSell 9 (by decide) (by decide)
      (by decide)).2⟩

/-! ## Matching-loop lemmas (C1, C6, C7) -/

@[simp] lemma fill_id (o : Order) (q : Nat) (s : OrderState) : (o.fill q s).id = o.id := rfl

@[simp] lemma fill_symbol (o : Order) (q : Nat) (s : OrderState) : (o.fill q s).symbol = o.symbol := rfl

@[simp] lemma fill_qty (o : Order) (q : Nat) (s : OrderState) : (o.fill q s).qty = o.qty := rfl

@[simp] lemma fill_side (o : Order) (q : Nat) (s : OrderState) : (o.fill q s).side = o.side := rfl

@[simp] lemma fill_price (o : Order) (q : Nat) (s : OrderState) : (o.fill q s).price = o.price := rfl

@[simp] lemma fill_ord_type (o : Order) (q : Nat) (s : OrderState) : (o.fill q s).ord_type = o.ord_type := rfl

@[simp] lemma fill_tif (o : Order) (q : Nat) (s : OrderState) : (o.fill q s).tif = o.tif := rfl

@[simp] lemma fill_acc (o : Order) (q : Nat) (s : OrderState) : (o.fill q s).acc_fill_qty = o.acc_fill_qty + q := rfl

@[simp] lemma fill_state (o : Order) (q : Nat) (s : OrderState) : (o.fill q s).state = s := rfl

@[simp] lemma fill_can_trade2 (o : Order) (q : Nat) (s : OrderState) (x : Order) :
    (o.fill q s).can_trade x = o.can_trade x := rfl

/-- Invariant of the match loop: the taker's identity fields never change, and
the filled quantity accounts exactly for the consumed remain. -/
lemma matchLoop_inv (taker : Order) (r now : Nat) (ms : List Order) :
    (matchLoop taker r now ms).taker.id = taker.id
    ∧ (matchLoop taker r now ms).taker.symbol = taker.symbol
    ∧ (matchLoop taker r now ms).taker.qty = taker.qty
    ∧ (matchLoop taker r now ms).taker.side = taker.side
    ∧ (matchLoop taker r now ms).taker.price = taker.price
    ∧ (matchLoop taker r now ms).taker.ord_type = taker.ord_type
    ∧ (matchLoop taker r now ms).taker.tif = taker.tif
    ∧ (matchLoop taker r now ms).taker.acc_fill_qty + (matchLoop taker r now ms).taker_remain
        = taker.acc_fill_qty + r
    ∧ (matchLoop taker r now ms).taker_remain ≤ r := by
  induction ms generalizing taker r with
  | nil => simp [matchLoop]
  | cons maker rest ih =>
    unfold matchLoop
    dsimp only
    split_ifs with h1 h2 h3 h4 h5 h6 h7 h8 h9 <;>
      first
        | (simp; done)
        | (refine ⟨rfl, rfl, rfl, rfl, rfl, rfl, rfl, ?_, ?_⟩ <;> ((try simp) <;> omega)
           done)
        | (exfalso; omega)
        | (exfalso; simp_all; done)
        | (obtain ⟨a1, a2, a3, a4, a5, a6, a7, a8, a9⟩ :=
             ih (taker.fill (min r maker.remain) PART_FILLED) (r - min r maker.remain)
           refine ⟨by simpa using a1, by simpa using a2, by simpa using a3, by simpa using a4,
             by simpa using a5, by simpa using a6, by simpa using a7, ?_, ?_⟩ <;>
             (simp at a8 ⊢ <;> omega))
        | (obtain ⟨a1, a2, a3, a4, a5, a6, a7, a8, a9⟩ :=
             ih (taker.fill (min r maker.remain) FULL_FILLED) (r - min r maker.remain)
           refine ⟨by simpa using a1, by simpa using a2, by simpa using a3, by simpa using a4,
             by simpa using a5, by simpa using a6, by simpa using a7, ?_, ?_⟩ <;>
             (simp at a8 ⊢ <;> omega))

/-- Every trade emitted inside the loop has a positive quantity (the loop
breaks before emitting when `matched_qty` would be zero). -/
lemma matchLoop_trades_pos (taker : Order) (r now : Nat) (ms : List Order) :
    ∀ t ∈ (matchLoop taker r now ms).trades, 0 < t.qty := by
  induction ms generalizing taker r with
  | nil => intro t ht; simp [matchLoop] at ht
  | cons maker rest ih =>
    intro t ht
    unfold matchLoop at ht
    dsimp only at ht
    split_ifs at ht with h1 h2 h3 h4 h5 h6 h7 h8 h9 <;>
      first
        | (simp at ht; done)
        | (rcases List.mem_singleton.mp ht with rfl
           (try simp) <;> omega)
        | (rcases List.mem_cons.mp ht with rfl | hmem
           · (try simp) <;> omega
           · exact ih _ _ t hmem)

/-- Every trade emitted inside the loop records the id and price of a maker
taken from the maker book, and that maker passed the `can_trade` check against
the taker. -/
lemma matchLoop_trades_maker (taker : Order) (r now : Nat) (ms : List Order) :
    ∀ t ∈ (matchLoop taker r now ms).trades,
      ∃ mk ∈ ms, t.maker_oid = mk.id ∧ t.px = mk.price ∧ taker.can_trade mk = true := by
  induction ms generalizing taker r with
  | nil => intro t ht; simp [matchLoop] at ht
  | cons maker rest ih =>
    intro t ht
    unfold matchLoop at ht
    dsimp only at ht
    split_ifs at ht with h1 h2 h3 h4 h5 h6 h7 h8 h9 <;>
      first
        | (simp at ht; done)
        | (rcases List.mem_singleton.mp ht with rfl
           exact ⟨maker, List.mem_cons_self _ _, by simp, by simp, h2⟩)
        | (rcases List.mem_cons.mp ht with rfl | hmem
           · exact ⟨maker, List.mem_cons_self _ _, by simp, by simp, h2⟩
           · rcases ih _ _ t hmem with ⟨mk, hmk, ho, hp, hc⟩
             exact ⟨mk, List.mem_cons_of_mem _ hmk, ho, hp, by simpa using hc⟩)

/-- FOK takers either break before any fill or fully fill against the head
maker in a single trade: the loop can never run a second iteration for FOK. -/
lemma matchLoop_fok (taker : Order) (r now : Nat) (ms : List Order)
    (hfok : taker.tif = FOK) (hr : 0 < r) :
    matchLoop taker r now ms = ⟨[], taker, r, ms⟩
    ∨ ∃ maker rest, ms = maker :: rest ∧ taker.can_trade maker = true ∧ r ≤ maker.remain
        ∧ matchLoop taker r now ms =
            ⟨[{ symbol := taker.symbol, qty := r, px := maker.price,
                taker_oid := taker.id, maker_oid := maker.id,
                taker_state := FULL_FILLED,
                maker_state := if 0 < maker.remain - r then PART_FILLED else FULL_FILLED,
                ts := now }],
              taker.fill r FULL_FILLED, 0,
              if 0 < maker.remain - r then maker.fill r PART_FILLED :: rest else rest⟩ := by
  cases ms with
  | nil => exact Or.inl rfl
  | cons maker rest =>
    unfold matchLoop
    dsimp only
    split_ifs with h1 h2 h3 h4 h5 h6 h7 h8 h9 <;>
      first
        | (exact Or.inl rfl)
        | (exfalso; omega)
        | (exfalso; simp_all; done)
        | (exfalso
           simp [hfok] at h3
           omega)
        | (have hle : r ≤ maker.remain := by
             simp [hfok] at h3
             omega
           have hmin : r ⊓ maker.remain = r := min_eq_left hle
           have hgt : 0 < maker.remain - r := by omega
           refine Or.inr ⟨maker, rest, rfl, h2, hle, ?_⟩
           simp [hmin, hgt]
           done)
        | (have hle : r ≤ maker.remain := by
             simp [hfok] at h3
             omega
           have hmin : r ⊓ maker.remain = r := min_eq_left hle
           have hng : maker.remain - r = 0 := by omega
           have h0 : r - r ⊓ maker.remain = 0 := by omega
           refine Or.inr ⟨maker, rest, rfl, h2, hle, ?_⟩
           rw [h0, matchLoop_zero]
           simp [hmin, hng]
           done)

/-- `match_book` without duplicate suppression, split along the residual
branches of the source (crates/core/src/market.rs lines 172-199). -/
lemma match_book_cases (taker : Order) (mb tb : OrderBook) (now : Nat) (L : LoopResult)
    (hdup : tb.exist_by_key (OrderKey.new taker) = false)
    (hL : matchLoop taker taker.remain now mb.orders = L) :
    (L.taker_remain = 0 →
       match_book taker mb tb now = ⟨L.trades, L.taker, { mb with orders := L.makers }, tb⟩)
    ∧ (0 < L.taker_remain → L.taker.tif = GTC → L.taker.ord_type = LIMIT →
       match_book taker mb tb now =
         ⟨L.trades, L.taker, { mb with orders := L.makers }, addUnwrap tb L.taker⟩)
    ∧ (0 < L.taker_remain → L.taker.tif = GTC → L.taker.ord_type = MARKET →
       match_book taker mb tb now = ⟨L.trades, L.taker, { mb with orders := L.makers }, tb⟩)
    ∧ (0 < L.taker_remain → L.taker.tif = IOC → L.taker_remain = L.taker.qty →
       match_book taker mb tb now =
         ⟨L.trades ++ [MatchTrade.new_taker_cancel L.taker.symbol L.taker.id now],
           L.taker.fill 0 CANCELED, { mb with orders := L.makers }, tb⟩)
    ∧ (0 < L.taker_remain → L.taker.tif = IOC → L.taker_remain ≠ L.taker.qty →
       match_book taker mb tb now =
         ⟨L.trades ++ [MatchTrade.new_taker_part_cancel L.taker.symbol L.taker.id now],
           L.taker.fill 0 PART_CANCELLED, { mb with orders := L.makers }, tb⟩)
    ∧ (0 < L.taker_remain → L.taker.tif = FOK →
       match_book taker mb tb now =
         ⟨L.trades ++ [MatchTrade.new_taker_cancel L.taker.symbol L.taker.id now],
           L.taker.fill 0 CANCELED, { mb with orders := L.makers }, tb⟩) := by
  unfold match_book
  simp only [hdup, Bool.false_eq_true, if_false]
  rw [hL]
  refine ⟨?_, ?_, ?_, ?_, ?_, ?_⟩
  · intro h0
    rw [if_neg (by omega)]
  · intro hpos htif hord
    rw [if_pos hpos, htif, hord]
  · intro hpos htif hord
    rw [if_pos hpos, htif, hord]
  · intro hpos htif heq
    rw [if_pos hpos, htif]
    simp [heq]
  · intro hpos htif hne
    rw [if_pos hpos, htif]
    simp [hne]
  · intro hpos htif
    rw [if_pos hpos, htif]

/-! ## Crossing and residual lemmas (C1, C4, C6, C7) -/

/-- What `can_trade = true` guarantees: opposite sides, and the LIMIT price
bounds of the source. -/
lemma can_trade_spec (o mk : Order) (h : o.can_trade mk = true) :
    mk.side ≠ o.side
    ∧ (o.ord_type = LIMIT →
        (o.side = BUY → mk.price ≤ o.price) ∧ (o.side = SELL → o.price ≤ mk.price)) := by
  unfold Order.can_trade at h
  have hside : ¬ o.side = mk.side := by
    intro hs
    rw [if_pos hs] at h
    simp at h
  rw [if_neg hside] at h
  refine ⟨fun hh => hside hh.symm, fun hl => ?_⟩
  have hm : ¬ o.ord_type = MARKET := by
    rw [hl]
    decide
  rw [if_neg hm] at h
  constructor
  · intro hb
    rw [hb] at h
    exact of_decide_eq_true h
  · intro hb
    rw [hb] at h
    exact of_decide_eq_true h

/-- The batch of `match_book` is the loop batch, possibly extended by a
`qty = 0` cancel event. -/
lemma match_book_trades_sub (taker : Order) (mb tb : OrderBook) (now : Nat) :
    ∀ t ∈ (match_book taker mb tb now).trades,
      t ∈ (matchLoop taker taker.remain now mb.orders).trades ∨ t.qty = 0 := by
  intro t ht
  unfold match_book at ht
  dsimp only at ht
  by_cases hdup : tb.exist_by_key (OrderKey.new taker) = true
  · rw [if_pos hdup] at ht
    simp at ht
  · rw [if_neg hdup] at ht
    by_cases hrem : (matchLoop taker taker.remain now mb.orders).taker_remain > 0
    · rw [if_pos hrem] at ht
      cases htif : (matchLoop taker taker.remain now mb.orders).taker.tif with
      | GTC =>
        rw [htif] at ht
        dsimp only at ht
        cases hord : (matchLoop taker taker.remain now mb.orders).taker.ord_type with
        | LIMIT =>
          rw [hord] at ht
          exact Or.inl ht
        | MARKET =>
          rw [hord] at ht
          exact Or.inl ht
      | IOC =>
        rw [htif] at ht
        dsimp only at ht
        by_cases heq : (matchLoop taker taker.remain now mb.orders).taker_remain
            = (matchLoop taker taker.remain now mb.orders).taker.qty
        · rw [if_pos heq] at ht
          rcases List.mem_append.mp ht with hmem | hc
          · exact Or.inl hmem
          · rcases List.mem_singleton.mp hc with rfl
            exact Or.inr rfl
        · rw [if_neg heq] at ht
          rcases List.mem_append.mp ht with hmem | hc
          · exact Or.inl hmem
          · rcases List.mem_singleton.mp hc with rfl
            exact Or.inr rfl
      | FOK =>
        rw [htif] at ht
        dsimp only at ht
        rcases List.mem_append.mp ht with hmem | hc
        · exact Or.inl hmem
        · rcases List.mem_singleton.mp hc with rfl
          exact Or.inr rfl
    · rw [if_neg hrem] at ht
      exact Or.inl ht

/-- Every positive-quantity trade of `match_book` comes from a maker of the
maker book that passed `can_trade`. -/
lemma match_book_trades (taker : Order) (mb tb : OrderBook) (now : Nat) :
    ∀ t ∈ (match_book taker mb tb now).trades, 0 < t.qty →
      ∃ mk ∈ mb.orders, t.maker_oid = mk.id ∧ t.px = mk.price
        ∧ taker.can_trade mk = true := by
  intro t ht hq
  rcases match_book_trades_sub taker mb tb now t ht with hmem | hz
  · exact matchLoop_trades_maker taker taker.remain now mb.orders t hmem
  · omega

/-- C6: every fill trade emitted by `try_match` pairs the taker with a maker
of opposite side drawn from the opposite book, at the maker's price, and
crossing is correct: a LIMIT BUY taker never trades below-limit makers and a
LIMIT SELL taker never trades above-limit makers, while MARKET takers trade
regardless of price; this holds for every trade of the batch. -/
theorem trades_cross_correct (m : MarketBook) (taker : Order) (now : Nat) :
    ∀ t ∈ (m.try_match taker now).trades, 0 < t.qty →
      ∃ mk ∈ (m.opp_book taker.side).orders,
        t.maker_oid = mk.id ∧ t.px = mk.price ∧ mk.side ≠ taker.side
        ∧ (taker.ord_type = LIMIT →
            (taker.side = BUY → mk.price ≤ taker.price)
            ∧ (taker.side = SELL → taker.price ≤ mk.price)) := by
  intro t ht hq
  have ht2 : t ∈ (mbr m taker now).trades := by
    rw [try_match_parts] at ht
    exact ht
  cases hs : taker.side
  · have ht3 : t ∈ (match_book taker m.buy m.sell now).trades := by
      unfold mbr at ht2
      rw [hs] at ht2
      exact ht2
    rcases match_book_trades taker m.buy m.sell now t ht3 hq with ⟨mk, hmk, ho, hp, hc⟩
    rcases can_trade_spec taker mk hc with ⟨hside, hpx⟩
    rw [hs] at hside hpx
    refine ⟨mk, ?_, ho, hp, hside, hpx⟩
    simp only [MarketBook.opp_book]
    exact hmk
  · have ht3 : t ∈ (match_book taker m.sell m.buy now).trades := by
      unfold mbr at ht2
      rw [hs] at ht2
      exact ht2
    rcases match_book_trades taker m.sell m.buy now t ht3 hq with ⟨mk, hmk, ho, hp, hc⟩
    rcases can_trade_spec taker mk hc with ⟨hside, hpx⟩
    rw [hs] at hside hpx
    refine ⟨mk, ?_, ho, hp, hside, hpx⟩
    simp only [MarketBook.opp_book]
    exact hmk


/-- For an FOK taker (not a duplicate, positive remain), `match_book` either
emits exactly one full fill or exactly one CANCELED event with both books
untouched. -/
lemma match_book_fok (taker : Order) (mb tb : OrderBook) (now : Nat)
    (hfok : taker.tif = FOK) (hrem : 0 < taker.remain)
    (hdup : tb.exist_by_key (OrderKey.new taker) = false) :
    (∃ tr : MatchTrade, (match_book taker mb tb now).trades = [tr]
       ∧ tr.qty = taker.remain
       ∧ (match_book taker mb tb now).taker.state = FULL_FILLED)
    ∨ ((match_book taker mb tb now).trades
          = [MatchTrade.new_taker_cancel taker.symbol taker.id now]
       ∧ (match_book taker mb tb now).taker.state = CANCELED
       ∧ (match_book taker mb tb now).maker_book = mb
       ∧ (match_book taker mb tb now).taker_book = tb) := by
  rcases matchLoop_fok taker taker.remain now mb.orders hfok hrem with hL | ⟨maker, rest, hms, hct, hle, hL⟩
  · have hc := match_book_cases taker mb tb now _ hdup hL
    have h6 := hc.2.2.2.2.2 hrem hfok
    refine Or.inr ⟨?_, ?_, ?_, ?_⟩ <;> rw [h6] <;> rfl
  · have hc := match_book_cases taker mb tb now _ hdup hL
    have h1 := hc.1 rfl
    rw [h1]
    exact Or.inl ⟨_, rfl, rfl, rfl⟩

/-- C1: for a FOK taker (accepted input: positive remain, not a duplicate),
`try_match` is all-or-nothing — either every batch element is a fill whose
quantities sum to the taker's remain() and the taker ends FULL_FILLED, or the
batch is exactly one CANCELED event with qty = 0 and both books are left
unchanged. -/
theorem fok_all_or_nothing (m : MarketBook) (taker : Order) (now : Nat)
    (hfok : taker.tif = FOK) (hrem : 0 < taker.remain)
    (hdup : (m.same_side_book taker.side).exist_by_key (OrderKey.new taker) = false)
    (R : MatchOut) (hR : R = m.try_match taker now) :
    ((∀ t ∈ R.trades, 0 < t.qty)
      ∧ (R.trades.map (fun t => t.qty)).sum = taker.remain
      ∧ R.taker.state = FULL_FILLED)
    ∨ (R.trades.length = 1
      ∧ (∀ t ∈ R.trades, t.qty = 0 ∧ t.taker_state = CANCELED)
      ∧ R.market.buy = m.buy ∧ R.market.sell = m.sell) := by
  subst hR
  rw [try_match_parts]
  cases hs : taker.side
  · rw [hs] at hdup
    simp only [MarketBook.same_side_book] at hdup
    have hfk := match_book_fok taker m.buy m.sell now hfok hrem hdup
    have hmb : mbr m taker now = match_book taker m.buy m.sell now := by
      unfold mbr
      rw [hs]
    rcases hfk with ⟨tr, htr, hqty, hst⟩ | ⟨htr, hst, hbk, htk⟩
    · rw [hmb] at *
      refine Or.inl ⟨?_, ?_, ?_⟩
      · intro t ht
        rw [htr] at ht
        rcases List.mem_singleton.mp ht with rfl
        omega
      · rw [htr]
        simp [hqty]
      · exact hst
    · rw [hmb]
      refine Or.inr ⟨?_, ?_, ?_, ?_⟩
      · rw [htr]
        rfl
      · intro t ht
        rw [htr] at ht
        rcases List.mem_singleton.mp ht with rfl
        exact ⟨rfl, rfl⟩
      · simp only
        rw [hbk]
      · simp only
        rw [htk]
  · rw [hs] at hdup
    simp only [MarketBook.same_side_book] at hdup
    have hfk := match_book_fok taker m.sell m.buy now hfok hrem hdup
    have hmb : mbr m taker now = match_book taker m.sell m.buy now := by
      unfold mbr
      rw [hs]
    rcases hfk with ⟨tr, htr, hqty, hst⟩ | ⟨htr, hst, hbk, htk⟩
    · rw [hmb] at *
      refine Or.inl ⟨?_, ?_, ?_⟩
      · intro t ht
        rw [htr] at ht
        rcases List.mem_singleton.mp ht with rfl
        omega
      · rw [htr]
        simp [hqty]
      · exact hst
    · rw [hmb]
      refine Or.inr ⟨?_, ?_, ?_, ?_⟩
      · rw [htr]
        rfl
      · intro t ht
        rw [htr] at ht
        rcases List.mem_singleton.mp ht with rfl
        exact ⟨rfl, rfl⟩
      · simp only
        rw [htk]
      · simp only
        rw [hbk]


/-- Residual handling of `match_book` (source lines 172-199) for a
non-duplicate taker that ends the loop with remaining quantity. -/
lemma match_book_residual (taker : Order) (mb tb : OrderBook) (now : Nat)
    (hacc : taker.acc_fill_qty ≤ taker.qty)
    (hside : taker.side = tb.side)
    (hdup : tb.exist_by_key (OrderKey.new taker) = false)
    (hres : 0 < (match_book taker mb tb now).taker.remain) :
    (taker.tif = GTC → taker.ord_type = LIMIT →
       (match_book taker mb tb now).taker_book
         = { tb with orders := insertByKey (match_book taker mb tb now).taker tb.orders }
       ∧ (∀ t ∈ (match_book taker mb tb now).trades, 0 < t.qty))
    ∧ (taker.tif = GTC → taker.ord_type = MARKET →
       (match_book taker mb tb now).taker_book = tb
       ∧ (∀ t ∈ (match_book taker mb tb now).trades, 0 < t.qty))
    ∧ (taker.tif = IOC →
       (match_book taker mb tb now).taker_book = tb
       ∧ ∃ e, (match_book taker mb tb now).trades.getLast? = some e ∧ e.qty = 0
           ∧ (∀ t ∈ (match_book taker mb tb now).trades.dropLast, 0 < t.qty)
           ∧ e.taker_state = (match_book taker mb tb now).taker.state
           ∧ ((match_book taker mb tb now).taker.acc_fill_qty = 0 →
                (match_book taker mb tb now).taker.state = CANCELED)
           ∧ (0 < (match_book taker mb tb now).taker.acc_fill_qty →
                (match_book taker mb tb now).taker.state = PART_CANCELLED)) := by
  obtain ⟨a1, a2, a3, a4, a5, a6, a7, a8, a9⟩ := matchLoop_inv taker taker.remain now mb.orders
  have hc := match_book_cases taker mb tb now _ hdup rfl
  have hpos : 0 < (matchLoop taker taker.remain now mb.orders).taker_remain := by
    by_cases h0 : (matchLoop taker taker.remain now mb.orders).taker_remain = 0
    · exfalso
      rw [hc.1 h0] at hres
      have hres2 : 0 < (matchLoop taker taker.remain now mb.orders).taker.qty
          - (matchLoop taker taker.remain now mb.orders).taker.acc_fill_qty := hres
      have hr : taker.remain = taker.qty - taker.acc_fill_qty := rfl
      omega
    · omega
  have hr : taker.remain = taker.qty - taker.acc_fill_qty := rfl
  refine ⟨?_, ?_, ?_⟩
  · intro htif hord
    have h2 := hc.2.1 hpos (a7.trans htif) (a6.trans hord)
    rw [h2]
    constructor
    · have hkey : OrderKey.new ((matchLoop taker taker.remain now mb.orders).taker)
          = OrderKey.new taker := by
        unfold OrderKey.new
        rw [a1, a5, a4]
      show addUnwrap tb _ = _
      unfold addUnwrap OrderBook.add
      rw [hkey, hdup]
      simp [a4, hside]
    · exact matchLoop_trades_pos taker taker.remain now mb.orders
  · intro htif hord
    have h3 := hc.2.2.1 hpos (a7.trans htif) (a6.trans hord)
    rw [h3]
    exact ⟨rfl, matchLoop_trades_pos taker taker.remain now mb.orders⟩
  · intro htif
    by_cases hq0 : (matchLoop taker taker.remain now mb.orders).taker_remain
        = (matchLoop taker taker.remain now mb.orders).taker.qty
    · have h4 := hc.2.2.2.1 hpos (a7.trans htif) hq0
      rw [h4]
      refine ⟨rfl, _, List.getLast?_concat _, rfl, ?_, rfl, fun _ => rfl, fun hgt => ?_⟩
      · rw [List.dropLast_concat]
        exact matchLoop_trades_pos taker taker.remain now mb.orders
      · exfalso
        have hga : 0 < (matchLoop taker taker.remain now mb.orders).taker.acc_fill_qty + 0 := hgt
        omega
    · have h5 := hc.2.2.2.2.1 hpos (a7.trans htif) hq0
      rw [h5]
      refine ⟨rfl, _, List.getLast?_concat _, rfl, ?_, rfl, fun hz => ?_, fun _ => rfl⟩
      · rw [List.dropLast_concat]
        exact matchLoop_trades_pos taker taker.remain now mb.orders
      · exfalso
        have hza : (matchLoop taker taker.remain now mb.orders).taker.acc_fill_qty + 0 = 0 := hz
        omega


/-- C7: residual handling when the match loop ends with remaining quantity —
a GTC LIMIT taker is inserted with its residual into the taker-side book, a
GTC MARKET residual is dropped with no rest and no extra event, and an IOC
taker never rests, is marked CANCELED exactly when it has no fills at all
(PARTIAL_CANCELLED otherwise) and appends exactly one terminating qty = 0
event to the batch. -/
theorem residual_handling (m : MarketBook) (taker : Order) (now : Nat)
    (hsides : m.buy.side = BUY ∧ m.sell.side = SELL)
    (hacc : taker.acc_fill_qty ≤ taker.qty)
    (hdup : (m.same_side_book taker.side).exist_by_key (OrderKey.new taker) = false)
    (R : MatchOut) (hR : R = m.try_match taker now)
    (hres : 0 < R.taker.remain) :
    (taker.tif = GTC → taker.ord_type = LIMIT →
       (R.market.same_side_book taker.side).orders
         = insertByKey R.taker (m.same_side_book taker.side).orders
       ∧ (∀ t ∈ R.trades, 0 < t.qty))
    ∧ (taker.tif = GTC → taker.ord_type = MARKET →
       R.market.same_side_book taker.side = m.same_side_book taker.side
       ∧ (∀ t ∈ R.trades, 0 < t.qty))
    ∧ (taker.tif = IOC →
       R.market.same_side_book taker.side = m.same_side_book taker.side
       ∧ ∃ e, R.trades.getLast? = some e ∧ e.qty = 0
           ∧ (∀ t ∈ R.trades.dropLast, 0 < t.qty)
           ∧ e.taker_state = R.taker.state
           ∧ (R.taker.acc_fill_qty = 0 → R.taker.state = CANCELED)
           ∧ (0 < R.taker.acc_fill_qty → R.taker.state = PART_CANCELLED)) := by
  subst hR
  rw [try_match_parts] at hres ⊢
  cases hs : taker.side
  · rw [hs] at hdup
    simp only [MarketBook.same_side_book] at hdup ⊢
    have hmb : mbr m taker now = match_book taker m.buy m.sell now := by
      unfold mbr
      rw [hs]
    have hres2 : 0 < (match_book taker m.buy m.sell now).taker.remain := by
      rw [← hmb]
      exact hres
    have hmr := match_book_residual taker m.buy m.sell now hacc
      (by rw [hs, hsides.2]) hdup hres2
    refine ⟨?_, ?_, ?_⟩
    · intro htif hord
      obtain ⟨hbk, hpos⟩ := hmr.1 htif hord
      constructor
      · show (mbr m taker now).taker_book.orders = _
        rw [hmb, hbk]
      · intro t ht
        rw [hmb] at ht
        exact hpos t ht
    · intro htif hord
      obtain ⟨hbk, hpos⟩ := hmr.2.1 htif hord
      constructor
      · show (mbr m taker now).taker_book = _
        rw [hmb, hbk]
      · intro t ht
        rw [hmb] at ht
        exact hpos t ht
    · intro htif
      obtain ⟨hbk, e, he1, he2, he3, he4, he5, he6⟩ := hmr.2.2 htif
      refine ⟨?_, e, ?_, he2, ?_, ?_, ?_, ?_⟩
      · show (mbr m taker now).taker_book = _
        rw [hmb, hbk]
      · show (mbr m taker now).trades.getLast? = some e
        rw [hmb]
        exact he1
      · intro t ht
        rw [hmb] at ht
        exact he3 t ht
      · show e.taker_state = (mbr m taker now).taker.state
        rw [hmb]
        exact he4
      · show (mbr m taker now).taker.acc_fill_qty = 0 → (mbr m taker now).taker.state = CANCELED
        rw [hmb]
        exact he5
      · show 0 < (mbr m taker now).taker.acc_fill_qty →
          (mbr m taker now).taker.state = PART_CANCELLED
        rw [hmb]
        exact he6
  · rw [hs] at hdup
    simp only [MarketBook.same_side_book] at hdup ⊢
    have hmb : mbr m taker now = match_book taker m.sell m.buy now := by
      unfold mbr
      rw [hs]
    have hres2 : 0 < (match_book taker m.sell m.buy now).taker.remain := by
      rw [← hmb]
      exact hres
    have hmr := match_book_residual taker m.sell m.buy now hacc
      (by rw [hs, hsides.1]) hdup hres2
    refine ⟨?_, ?_, ?_⟩
    · intro htif hord
      obtain ⟨hbk, hpos⟩ := hmr.1 htif hord
      constructor
      · show (mbr m taker now).taker_book.orders = _
        rw [hmb, hbk]
      · intro t ht
        rw [hmb] at ht
        exact hpos t ht
    · intro htif hord
      obtain ⟨hbk, hpos⟩ := hmr.2.1 htif hord
      constructor
      · show (mbr m taker now).taker_book = _
        rw [hmb, hbk]
      · intro t ht
        rw [hmb] at ht
        exact hpos t ht
    · intro htif
      obtain ⟨hbk, e, he1, he2, he3, he4, he5, he6⟩ := hmr.2.2 htif
      refine ⟨?_, e, ?_, he2, ?_, ?_, ?_, ?_⟩
      · show (mbr m taker now).taker_book = _
        rw [hmb, hbk]
      · show (mbr m taker now).trades.getLast? = some e
        rw [hmb]
        exact he1
      · intro t ht
        rw [hmb] at ht
        exact he3 t ht
      · show e.taker_state = (mbr m taker now).taker.state
        rw [hmb]
        exact he4
      · show (mbr m taker now).taker.acc_fill_qty = 0 → (mbr m taker now).taker.state = CANCELED
        rw [hmb]
        exact he5
      · show 0 < (mbr m taker now).taker.acc_fill_qty →
          (mbr m taker now).taker.state = PART_CANCELLED
        rw [hmb]
        exact he6


/-! ## Cache lemmas (C4) -/

lemma lookup_append_notin {α : Type} (k f : String) (v : α) (l : List (String × α))
    (h : k ≠ f) : (l ++ [(f, v)]).lookup k = l.lookup k := by
  have hbf : (k == f) = false := beq_eq_false_iff_ne.mpr h
  induction l with
  | nil => simp [List.lookup, hbf]
  | cons p rest ih =>
    obtain ⟨a, b⟩ := p
    simp only [List.cons_append, List.lookup]
    cases hka : k == a
    · dsimp only
      exact ih
    · dsimp only

lemma zaddNX_hfields (st : RedisState) (key : String) (score : Nat) (mem k : String) :
    (zaddNX st key score mem).2.hfields k = st.hfields k := by
  unfold zaddNX
  dsimp only
  split_ifs <;> rfl

lemma zaddNX_reply (st : RedisState) (key : String) (score : Nat) (mem : String) :
    (zaddNX st key score mem).1
      = if ((st.zmembers key).lookup mem).isSome then 0 else 1 := by
  unfold zaddNX
  dsimp only
  split_ifs <;> rfl

lemma hsetNX_reply (st : RedisState) (key f v : String) :
    (hsetNX st key f v).1 = if ((st.hfields key).lookup f).isSome then 0 else 1 := by
  unfold hsetNX
  dsimp only
  split_ifs <;> rfl

lemma lookup_alistSet_self {α : Type} (k : String) (v : α) (l : List (String × α)) :
    (alistSet k v l).lookup k = some v := by
  induction l with
  | nil => simp [alistSet, List.lookup]
  | cons p rest ih =>
    obtain ⟨a, b⟩ := p
    by_cases hk : a = k
    · simp [alistSet, hk, List.lookup]
    · have hbf : (k == a) = false := beq_eq_false_iff_ne.mpr (fun hh => hk hh.symm)
      simp only [alistSet, if_neg hk, List.lookup, hbf]
      exact ih

lemma hsetNX_lookup_other (st : RedisState) (key f v g : String) (h : g ≠ f) :
    ((hsetNX st key f v).2.hfields key).lookup g = ((st.hfields key).lookup g) := by
  unfold hsetNX
  dsimp only
  split_ifs with hp
  · rfl
  · show ((RedisState.hfields _ key).lookup g) = _
    unfold RedisState.hfields
    dsimp only
    rw [lookup_alistSet_self]
    simp only [Option.getD_some]
    exact lookup_append_notin g f v _ h

/-- All `HSETNX` replies are 1 iff every field was absent beforehand
(field names distinct). -/
lemma hsetnxAll_all_one (st : RedisState) (key : String) (ps : List (String × String))
    (hnd : (ps.map Prod.fst).Nodup) :
    (∀ i ∈ (hsetnxAll st key ps).1, i = 1)
      ↔ ∀ p ∈ ps, ((st.hfields key).lookup p.1) = none := by
  induction ps generalizing st with
  | nil => simp [hsetnxAll]
  | cons p rest ih =>
    obtain ⟨f, v⟩ := p
    rw [List.map_cons, List.nodup_cons] at hnd
    have hstep : (hsetnxAll st key ((f, v) :: rest)).1
        = (hsetNX st key f v).1 :: (hsetnxAll (hsetNX st key f v).2 key rest).1 := rfl
    rw [hstep]
    simp only [List.mem_cons, forall_eq_or_imp]
    constructor
    · rintro ⟨h1, hr⟩
      have hf : ((st.hfields key).lookup f) = none := by
        rw [hsetNX_reply] at h1
        by_cases hp : ((st.hfields key).lookup f).isSome
        · rw [if_pos hp] at h1
          exact absurd h1 (by decide)
        · exact Option.not_isSome_iff_eq_none.mp hp
      refine ⟨hf, fun q hq => ?_⟩
      have hq1 := (ih (hsetNX st key f v).2 hnd.2).mp hr q hq
      rwa [hsetNX_lookup_other st key f v q.1
        (fun hh => hnd.1 (by rw [← hh]; exact List.mem_map.mpr ⟨q, hq, rfl⟩))] at hq1
    · rintro ⟨hf, hr⟩
      constructor
      · rw [hsetNX_reply, hf]
        rfl
      · refine (ih (hsetNX st key f v).2 hnd.2).mpr fun q hq => ?_
        rw [hsetNX_lookup_other st key f v q.1
          (fun hh => hnd.1 (by rw [← hh]; exact List.mem_map.mpr ⟨q, hq, rfl⟩))]
        exact hr q hq


/-- C4: `add_if_absent` returns true iff the ID-index insert and every
per-field insert succeed (state not torn); it returns false if the ID
existed. -/
theorem add_if_absent_spec (st : RedisState) (o : Order)
    (hnt : recordNotTorn st (cache_key_order o.symbol o.id)) :
    ((CacheManager.add_if_absent st o).1 = true
      ↔ ((zaddNX st (cache_key_id o.symbol) o.ts (toString o.id)).1 = 1
         ∧ ∀ i ∈ (hsetnxAll (zaddNX st (cache_key_id o.symbol) o.ts (toString o.id)).2
                    (cache_key_order o.symbol o.id) (orderFieldPairs o)).1, i = 1))
    ∧ (((st.zmembers (cache_key_id o.symbol)).lookup (toString o.id)).isSome = true →
        (CacheManager.add_if_absent st o).1 = false) := by
  have hnt1 : recordNotTorn (zaddNX st (cache_key_id o.symbol) o.ts (toString o.id)).2
      (cache_key_order o.symbol o.id) := by
    intro f
    rw [zaddNX_hfields]
    exact hnt f
  have hnd : ((orderFieldPairs o).map Prod.fst).Nodup := by
    simp only [orderFieldPairs, List.map_cons, List.map_nil]
    decide
  have hres_eq : (CacheManager.add_if_absent st o).1
      = (((zaddNX st (cache_key_id o.symbol) o.ts (toString o.id)).1 == 1)
         && ((hsetNX (zaddNX st (cache_key_id o.symbol) o.ts (toString o.id)).2
               (cache_key_order o.symbol o.id) "id" (toString o.id)).1 == 1)) := rfl
  have hstep : (hsetnxAll (zaddNX st (cache_key_id o.symbol) o.ts (toString o.id)).2
        (cache_key_order o.symbol o.id) (orderFieldPairs o)).1
      = (hsetNX (zaddNX st (cache_key_id o.symbol) o.ts (toString o.id)).2
            (cache_key_order o.symbol o.id) "id" (toString o.id)).1
        :: (hsetnxAll (hsetNX (zaddNX st (cache_key_id o.symbol) o.ts (toString o.id)).2
              (cache_key_order o.symbol o.id) "id" (toString o.id)).2
            (cache_key_order o.symbol o.id) (orderFieldPairs o).tail).1 := rfl
  constructor
  · rw [hres_eq]
    constructor
    · intro htrue
      rw [Bool.and_eq_true] at htrue
      obtain ⟨h0, h1⟩ := htrue
      refine ⟨by simpa using h0, ?_⟩
      have hid : (((zaddNX st (cache_key_id o.symbol) o.ts (toString o.id)).2.hfields
          (cache_key_order o.symbol o.id)).lookup "id") = none := by
        rw [hsetNX_reply] at h1
        by_cases hp : (((zaddNX st (cache_key_id o.symbol) o.ts (toString o.id)).2.hfields
            (cache_key_order o.symbol o.id)).lookup "id").isSome
        · rw [if_pos hp] at h1
          exact absurd h1 (by decide)
        · exact Option.not_isSome_iff_eq_none.mp hp
      refine (hsetnxAll_all_one _ _ _ hnd).mpr fun p hp => ?_
      by_cases hps : (((zaddNX st (cache_key_id o.symbol) o.ts (toString o.id)).2.hfields
          (cache_key_order o.symbol o.id)).lookup p.1).isSome
      · exfalso
        have := hnt1 p.1 hps
        rw [hid] at this
        simp at this
      · exact Option.not_isSome_iff_eq_none.mp hps
    · rintro ⟨h0, hall⟩
      have hmem := hall _ (by rw [hstep]; exact List.mem_cons_self _ _)
      rw [h0, hmem]
      rfl
  · intro hsome
    rw [hres_eq, zaddNX_reply, if_pos hsome]
    rfl


/-! ## Remaining witnesses and sample states -/

/-- The empty store has no torn records. -/
lemma emptyRedis_notTorn (k : String) : recordNotTorn ⟨[], []⟩ k := by
  intro f h
  simp [RedisState.hfields, List.lookup] at h

theorem add_if_absent_spec_witness :
    (CacheManager.add_if_absent ⟨[], []⟩ orderC4).1 = true :=
  (add_if_absent_spec ⟨[], []⟩ orderC4 (emptyRedis_notTorn _)).1.mpr ⟨by decide, by decide⟩

theorem fok_all_or_nothing_witness :
    takerFok.tif = FOK ∧ 0 < takerFok.remain
    ∧ (mktCancel.same_side_book takerFok.side).exist_by_key (OrderKey.new takerFok) = false
    ∧ (((∀ t ∈ (mktCancel.try_match takerFok 7).trades, 0 < t.qty)
        ∧ ((mktCancel.try_match takerFok 7).trades.map (fun t => t.qty)).sum = takerFok.remain
        ∧ (mktCancel.try_match takerFok 7).taker.state = FULL_FILLED)
      ∨ ((mktCancel.try_match takerFok 7).trades.length = 1
        ∧ (∀ t ∈ (mktCancel.try_match takerFok 7).trades, t.qty = 0 ∧ t.taker_state = CANCELED)
        ∧ (mktCancel.try_match takerFok 7).market.buy = mktCancel.buy
        ∧ (mktCancel.try_match takerFok 7).market.sell = mktCancel.sell)) :=
  ⟨rfl, by decide, by decide,
   fok_all_or_nothing mktCancel takerFok 7 rfl (by decide) (by decide) _ rfl⟩

theorem trades_cross_correct_witness :
    tradeW ∈ (mktCancel.try_match takerW 7).trades
    ∧ 0 < tradeW.qty
    ∧ ∃ mk ∈ (mktCancel.opp_book takerW.side).orders,
        tradeW.maker_oid = mk.id ∧ tradeW.px = mk.price ∧ mk.side ≠ takerW.side
        ∧ (takerW.ord_type = LIMIT →
            (takerW.side = BUY → mk.price ≤ takerW.price)
            ∧ (takerW.side = SELL → takerW.price ≤ mk.price)) :=
  ⟨by decide, by decide,
   trades_cross_correct mktCancel takerW 7 tradeW (by decide) (by decide)⟩

theorem residual_handling_witness :
    (mktCancel.buy.side = BUY ∧ mktCancel.sell.side = SELL)
    ∧ takerIoc.acc_fill_qty ≤ takerIoc.qty
    ∧ (mktCancel.same_side_book takerIoc.side).exist_by_key (OrderKey.new takerIoc) = false
    ∧ 0 < (mktCancel.try_match takerIoc 7).taker.remain
    ∧ (takerIoc.tif = IOC →
        (mktCancel.try_match takerIoc 7).market.same_side_book takerIoc.side
          = mktCancel.same_side_book takerIoc.side
        ∧ ∃ e, (mktCancel.try_match takerIoc 7).trades.getLast? = some e ∧ e.qty = 0
            ∧ (∀ t ∈ (mktCancel.try_match takerIoc 7).trades.dropLast, 0 < t.qty)
            ∧ e.taker_state = (mktCancel.try_match takerIoc 7).taker.state
            ∧ ((mktCancel.try_match takerIoc 7).taker.acc_fill_qty = 0 →
                 (mktCancel.try_match takerIoc 7).taker.state = CANCELED)
            ∧ (0 < (mktCancel.try_match takerIoc 7).taker.acc_fill_qty →
                 (mktCancel.try_match takerIoc 7).taker.state = PART_CANCELLED)) :=
  ⟨⟨rfl, rfl⟩, by decide, by decide, by decide,
   (residual_handling mktCancel takerIoc 7 ⟨rfl, rfl⟩ (by decide) (by decide) _ rfl
      (by decide)).2.2⟩


/-! ## The not-torn invariant is maintained by the CacheManager operations -/

lemma lookup_append_cases {α : Type} (k : String) (l1 l2 : List (String × α)) :
    (l1 ++ l2).lookup k
      = match l1.lookup k with
        | some v => some v
        | none => l2.lookup k := by
  induction l1 with
  | nil => simp [List.lookup]
  | cons p rest ih =>
    obtain ⟨a, b⟩ := p
    simp only [List.cons_append, List.lookup]
    cases hka : k == a
    · dsimp only
      exact ih
    · dsimp only

lemma lookup_alistSet_other {α : Type} (k : String) (v : α) (l : List (String × α))
    (k2 : String) (h : k2 ≠ k) : (alistSet k v l).lookup k2 = l.lookup k2 := by
  have hbf : (k2 == k) = false := beq_eq_false_iff_ne.mpr h
  induction l with
  | nil => simp [alistSet, List.lookup, hbf]
  | cons p rest ih =>
    obtain ⟨a, b⟩ := p
    by_cases hk : a = k
    · subst hk
      unfold alistSet
      rw [if_pos rfl]
      simp only [List.lookup, hbf]
    · simp only [alistSet, if_neg hk, List.lookup]
      cases hka : k2 == a
      · dsimp only
        exact ih
      · dsimp only

/-- The record written by `HSETNX`: unchanged if the field pre-existed, else
extended by the new field. -/
lemma hsetNX_hfields_self (st : RedisState) (key f v : String) :
    (hsetNX st key f v).2.hfields key
      = if ((st.hfields key).lookup f).isSome then st.hfields key
        else st.hfields key ++ [(f, v)] := by
  unfold hsetNX
  dsimp only
  split_ifs with hp
  · rfl
  · show RedisState.hfields _ key = _
    unfold RedisState.hfields
    dsimp only
    rw [lookup_alistSet_self]
    rfl

lemma hsetNX_hfields_other (st : RedisState) (key f v k : String) (h : k ≠ key) :
    (hsetNX st key f v).2.hfields k = st.hfields k := by
  unfold hsetNX
  dsimp only
  split_ifs with hp
  · rfl
  · show RedisState.hfields _ k = _
    unfold RedisState.hfields
    dsimp only
    rw [lookup_alistSet_other key _ _ k h]

lemma hsetnxAll_hfields_other (st : RedisState) (key : String)
    (ps : List (String × String)) (k : String) (h : k ≠ key) :
    (hsetnxAll st key ps).2.hfields k = st.hfields k := by
  induction ps generalizing st with
  | nil => rfl
  | cons p rest ih =>
    obtain ⟨f, v⟩ := p
    show (hsetnxAll (hsetNX st key f v).2 key rest).2.hfields k = _
    rw [ih, hsetNX_hfields_other st key f v k h]

lemma hsetNX_preserves_present (st : RedisState) (key f v g : String)
    (h : ((st.hfields key).lookup g).isSome = true) :
    (((hsetNX st key f v).2.hfields key).lookup g).isSome = true := by
  rw [hsetNX_hfields_self]
  split_ifs with hp
  · exact h
  · rw [lookup_append_cases]
    rcases ho : (st.hfields key).lookup g with _ | w
    · rw [ho] at h
      simp at h
    · simp

lemma hsetnxAll_preserves_present (st : RedisState) (key : String)
    (ps : List (String × String)) (g : String)
    (h : ((st.hfields key).lookup g).isSome = true) :
    (((hsetnxAll st key ps).2.hfields key).lookup g).isSome = true := by
  induction ps generalizing st with
  | nil => exact h
  | cons p rest ih =>
    obtain ⟨f, v⟩ := p
    exact ih (hsetNX st key f v).2 (hsetNX_preserves_present st key f v g h)

lemma hsetNX_sets_field (st : RedisState) (key f v : String) :
    (((hsetNX st key f v).2.hfields key).lookup f).isSome = true := by
  rw [hsetNX_hfields_self]
  split_ifs with hp
  · exact hp
  · rw [lookup_append_cases]
    rw [Option.not_isSome_iff_eq_none.mp hp]
    have hbt : (f == f) = true := beq_self_eq_true f
    simp [List.lookup, hbt]

lemma hsetnxAll_first_present (st : RedisState) (key : String) (f v : String)
    (rest : List (String × String)) :
    (((hsetnxAll st key ((f, v) :: rest)).2.hfields key).lookup f).isSome = true := by
  show (((hsetnxAll (hsetNX st key f v).2 key rest).2.hfields key).lookup f).isSome = true
  exact hsetnxAll_preserves_present _ _ _ f (hsetNX_sets_field _ _ f v)

/-- After `add_if_absent`, the guard field `id` of the written record is
present, so the written record is not torn; records at other keys are
untouched. -/
lemma add_if_absent_notTorn (st : RedisState) (o : Order) (k : String)
    (h : recordNotTorn st k) :
    recordNotTorn (CacheManager.add_if_absent st o).2 k := by
  have heq2 : (CacheManager.add_if_absent st o).2
      = (hsetnxAll (zaddNX st (cache_key_id o.symbol) o.ts (toString o.id)).2
          (cache_key_order o.symbol o.id) (orderFieldPairs o)).2 := by
    unfold CacheManager.add_if_absent
    dsimp only
  have hpairs : orderFieldPairs o = ("id", toString o.id) :: (orderFieldPairs o).tail := rfl
  by_cases hk : k = cache_key_order o.symbol o.id
  · subst hk
    intro f _
    rw [heq2, hpairs]
    exact hsetnxAll_first_present _ _ "id" (toString o.id) _
  · intro f hf
    have he : (CacheManager.add_if_absent st o).2.hfields k = st.hfields k := by
      rw [heq2, hsetnxAll_hfields_other _ _ _ k hk, zaddNX_hfields]
    rw [he] at hf ⊢
    exact h f hf

lemma lookup_filter_ne_key {α : Type} (target k : String) (l : List (String × α))
    (h : k ≠ target) :
    (l.filter (fun p => p.1 ≠ target)).lookup k = l.lookup k := by
  induction l with
  | nil => rfl
  | cons p rest ih =>
    obtain ⟨a, b⟩ := p
    by_cases ha : a = target
    · rw [List.filter_cons, if_neg (by simp [ha])]
      have hbk : (k == a) = false := beq_eq_false_iff_ne.mpr (by rw [ha]; exact h)
      simp only [List.lookup, hbk]
      exact ih
    · rw [List.filter_cons, if_pos (by simp [ha])]
      simp only [List.lookup]
      cases hka : k == a
      · dsimp only
        exact ih
      · dsimp only

lemma lookup_filter_self {α : Type} (target : String) (l : List (String × α)) :
    (l.filter (fun p => p.1 ≠ target)).lookup target = none := by
  induction l with
  | nil => rfl
  | cons p rest ih =>
    obtain ⟨a, b⟩ := p
    by_cases ha : a = target
    · rw [List.filter_cons, if_neg (by simp [ha])]
      exact ih
    · rw [List.filter_cons, if_pos (by simp [ha])]
      simp only [List.lookup]
      rw [show (target == a) = false from beq_eq_false_iff_ne.mpr (fun hh => ha hh.symm)]
      exact ih

/-- `CacheManager::del` removes the whole record atomically, so it cannot
tear any record. -/
lemma del_notTorn (st : RedisState) (o : Order) (k : String)
    (h : recordNotTorn st k) : recordNotTorn (CacheManager.del st o) k := by
  by_cases hk : k = cache_key_order o.symbol o.id
  · subst hk
    intro f hf
    unfold CacheManager.del RedisState.hfields at hf
    dsimp only at hf
    rw [lookup_filter_self] at hf
    simp [List.lookup] at hf
  · intro f hf
    have he : (CacheManager.del st o).hfields k = st.hfields k := by
      unfold CacheManager.del RedisState.hfields
      dsimp only
      rw [lookup_filter_ne_key _ k _ hk]
    rw [he] at hf ⊢
    exact h f hf

end Loom
